import Mathlib

/-!
# Verification of the Oversharing span-detection and reconciliation engine

Shallow embedding of the repository's core: the span reconciliation routine
(`_non_overlapping` in `app.py`), the offset relocation routine
(`_attach_offsets` in `predictors.py`), the pattern/lexicon scanner
(`Detector.analyze` in `detector.py`) and the result assembly of the three
prediction entry points.

Python strings are modelled as `List Char`; `str.lower` as character-by-
character lowering, including the one unconditional length-changing Unicode
lowercase mapping Python applies (`İ`, U+0130, lowers to two characters), so
lowering is not length-preserving, exactly as in Python; character offsets as
`Nat` (all offsets arising in the program are non-negative); Python's stable
`sorted` as `List.insertionSort` (also a stable sort, hence extensionally
equal on every total preorder key).
-/

namespace Oversharing

/-- A detected span: `{"start": .., "end": .., "text": .., "label": ..}`
dictionaries in the Python source. -/
structure Span where
  start : Nat
  «end» : Nat
  text : List Char
  label : String
deriving DecidableEq

/-- The sort key of `_non_overlapping` (`app.py` line 54):
`key=lambda s: (s["start"], -(s["end"]-s["start"]))`, read as the associated
non-strict lexicographic order.  The second component compares Python integers,
so length is computed in `Int`. -/
def spanLE (a b : Span) : Prop :=
  a.start < b.start ∨
    (a.start = b.start ∧ (b.«end» : Int) - b.start ≤ (a.«end» : Int) - a.start)

instance : DecidableRel spanLE := fun a b => by
  unfold spanLE; infer_instance

instance : IsTotal Span spanLE := by
  constructor
  intro a b
  rcases Nat.lt_trichotomy a.start b.start with h | h | h
  · exact Or.inl (Or.inl h)
  · rcases le_total ((b.«end» : Int) - b.start) ((a.«end» : Int) - a.start) with h2 | h2
    · exact Or.inl (Or.inr ⟨h, h2⟩)
    · exact Or.inr (Or.inr ⟨h.symm, h2⟩)
  · exact Or.inr (Or.inl h)

instance : IsTrans Span spanLE := by
  constructor
  intro a b c hab hbc
  rcases hab with h1 | ⟨e1, l1⟩
  · rcases hbc with h2 | ⟨e2, _⟩
    · exact Or.inl (h1.trans h2)
    · exact Or.inl (e2 ▸ h1)
  · rcases hbc with h2 | ⟨e2, l2⟩
    · exact Or.inl (e1 ▸ h2)
    · exact Or.inr ⟨e1.trans e2, le_trans l2 l1⟩

/-- The greedy acceptance loop of `_non_overlapping` (`app.py` lines 55-59):
accept a span when its start is at or after the end of the last accepted span
(`last_end` starts at `-1`, hence the `Int` accumulator). -/
def nonOverlapGo : List Span → Int → List Span
  | [], _ => []
  | s :: rest, lastEnd =>
    if lastEnd ≤ (s.start : Int) then s :: nonOverlapGo rest s.«end»
    else nonOverlapGo rest lastEnd

/-- The `_non_overlapping` (`app.py` lines 53-60): sort by
`(start, -(end-start))` with a stable sort, then greedily keep spans whose
start is `>=` the last accepted end. -/
def _non_overlapping (spans : List Span) : List Span :=
  nonOverlapGo (List.insertionSort spanLE spans) (-1)

/-! ## Offset relocation (`_attach_offsets`, `predictors.py` lines 171-190) -/

/-- Python `str.lower` on a single character.  Every character lowers to a
single character except `İ` (U+0130, LATIN CAPITAL LETTER I WITH DOT ABOVE),
the one unconditional length-changing lowercase mapping Python applies: it
lowers to the two characters `i` followed by U+0307 (COMBINING DOT ABOVE).
So `str.lower` can lengthen a string, and indices found in the lowered text
need not be valid in the original. -/
def lowerChar (c : Char) : List Char :=
  if c = 'İ' then ['i', '\u0307'] else [c.toLower]

/-- Python `str.lower`, character by character (not length-preserving). -/
def lowerStr (s : List Char) : List Char := s.flatMap lowerChar

/-- Python slice `s[a:b]` for non-negative `a`, `b` (clamping, never raising). -/
def pySlice (s : List Char) (a b : Nat) : List Char := (s.drop a).take (b - a)

/-- Python `s.find(sub, start)`, with `none` for `-1`: the least index
`i ≥ start` (searching `i ≤ len(s)`) at which `sub` occurs in `s`. -/
def strFind (s sub : List Char) (start : Nat) : Option Nat :=
  (List.range (s.length + 1)).find? fun i =>
    decide (start ≤ i) && sub.isPrefixOf (s.drop i)

/-- An offset-free candidate hint `{"label": .., "text": ..}` as received from
the external risk classifier. -/
structure Hint where
  label : String
  text : List Char
deriving DecidableEq

/-- The four-stage search of `_attach_offsets` (`predictors.py` lines 178-184):
exact at/after the cursor, case-insensitive at/after the cursor, exact
anywhere, case-insensitive anywhere. -/
def findStart (text frag : List Char) (cursor : Nat) : Option Nat :=
  match strFind text frag cursor with
  | some i => some i
  | none =>
    match strFind (lowerStr text) (lowerStr frag) cursor with
    | some i => some i
    | none =>
      match strFind text frag 0 with
      | some i => some i
      | none => strFind (lowerStr text) (lowerStr frag) 0

/-- The hint loop of `_attach_offsets` with its forward cursor: empty
fragments are skipped, unlocatable fragments are dropped, and on success the
span text is re-sliced from the source and the cursor advances to the span
end. -/
def attachGo (text : List Char) : List Hint → Nat → List Span
  | [], _ => []
  | h :: rest, cursor =>
    if h.text = [] then attachGo text rest cursor
    else
      match findStart text h.text cursor with
      | none => attachGo text rest cursor
      | some start =>
        let e := start + h.text.length
        ⟨start, e, pySlice text start e, h.label⟩ :: attachGo text rest e

/-- The `_attach_offsets` (`predictors.py` lines 171-190). -/
def _attach_offsets (text : List Char) (spans_text : List Hint) : List Span :=
  attachGo text spans_text 0

/-! ### The relocation contract as the spec words it (§4.3) -/

/-- First successful search among an ordered list of attempts. -/
def firstSome : List (Option Nat) → Option Nat
  | [] => none
  | some x :: _ => some x
  | none :: rest => firstSome rest

/-- Modelled from the spec (§4.3, steps 2-5): the four search strategies in
their stated order — exact at or after the cursor, case-insensitive at or
after the cursor, exact anywhere, case-insensitive anywhere. -/
def searchStrategies (source frag : List Char) (cursor : Nat) : List (Option Nat) :=
  [ strFind source frag cursor,
    strFind (lowerStr source) (lowerStr frag) cursor,
    strFind source frag 0,
    strFind (lowerStr source) (lowerStr frag) 0 ]

/-- Modelled from the spec (§4.3): process hints in the given order with a
single forward cursor; skip empty fragments (step 1); locate via the first
successful strategy (steps 2-5); drop unlocatable hints (step 6); on success
re-slice the text, emit the span and advance the cursor to its end (step 7). -/
def relocateSpecGo (source : List Char) : List Hint → Nat → List Span
  | [], _ => []
  | hint :: rest, cursor =>
    if hint.text = [] then relocateSpecGo source rest cursor
    else
      match firstSome (searchStrategies source hint.text cursor) with
      | none => relocateSpecGo source rest cursor
      | some start =>
        ⟨start, start + hint.text.length,
            pySlice source start (start + hint.text.length), hint.label⟩ ::
          relocateSpecGo source rest (start + hint.text.length)

/-- Modelled from the spec (§4.3): the relocation contract, cursor starting
at 0. -/
def relocateSpec (source : List Char) (hints : List Hint) : List Span :=
  relocateSpecGo source hints 0

/-! ## Pattern/lexicon scanner (`detector.py`)

The scanner's regular expressions are embedded through a small backtracking
engine with Python `re`'s semantics: a match attempt at a position returns
every candidate end offset in the order Python's engine would try them
(greedy quantifiers prefer more repetitions, alternatives are tried left to
right), and the chosen match is the first candidate.  Character classes are
modelled over ASCII, as in the source's patterns. -/

/-- ASCII model of Python's `\w`. -/
def isWordChar (c : Char) : Bool := c.isAlphanum || c = '_'

/-- Python's `\s`. -/
def isPySpace (c : Char) : Bool :=
  c = ' ' || c = '\t' || c = '\n' || c = '\r' || c.toNat = 11 || c.toNat = 12

def isWordAt (s : List Char) (i : Nat) : Bool :=
  match s[i]? with
  | some c => isWordChar c
  | none => false

/-- Python's `\b`: a word/non-word transition between positions `i-1` and `i`. -/
def boundaryAt (s : List Char) (i : Nat) : Bool :=
  (match i with
   | 0 => false
   | j + 1 => isWordAt s j) != isWordAt s i

/-- Regular expressions as used by `detector.py`: character classes, word
boundaries, concatenation, alternation (left preferred) and greedy option.
Greedy counted repetition `{lo,hi}` is the derived constructor `rep` below;
unbounded `+`/`{k,}` are instantiated with the input length as the upper
bound, which is equivalent since every repeated body consumes at least one
character. -/
inductive RE where
  | cls (p : Char → Bool)
  | eps
  | bnd
  | seq (a b : RE)
  | alt (a b : RE)
  | opt (a : RE)

/-- All candidate end positions of a match of `r` anchored at `i`, in
backtracking preference order. -/
def reRun : RE → List Char → Nat → List Nat
  | .cls p, s, i =>
    match s[i]? with
    | some c => if p c then [i + 1] else []
    | none => []
  | .eps, _, i => [i]
  | .bnd, s, i => if boundaryAt s i then [i] else []
  | .seq a b, s, i => (reRun a s i).flatMap fun j => reRun b s j
  | .alt a b, s, i => reRun a s i ++ reRun b s i
  | .opt a, s, i => reRun a s i ++ [i]

/-- Greedy counted repetition `a{lo,hi}` with Python's preference order: a
mandatory iteration while `lo > 0`; once `lo = 0`, prefer a further iteration
over stopping.  (`lo > hi` matches nothing.) -/
def rep (a : RE) : Nat → Nat → RE
  | lo, 0 => if lo = 0 then .eps else .cls fun _ => false
  | lo, h + 1 =>
    if lo = 0 then .opt (.seq a (rep a 0 h))
    else .seq a (rep a (lo - 1) h)

/-- Python `re.finditer` scan: try a match at each position left to right,
emit the engine's preferred match, resume after its end (all the source's
patterns match at least one character). -/
def finditerAux (r : RE) (s : List Char) : Nat → Nat → List (Nat × Nat)
  | _, 0 => []
  | i, fuel + 1 =>
    if i ≤ s.length then
      match reRun r s i with
      | [] => finditerAux r s (i + 1) fuel
      | j :: _ => (i, j) :: finditerAux r s (max j (i + 1)) fuel
    else []

def finditer (r : RE) (s : List Char) : List (Nat × Nat) :=
  finditerAux r s 0 (s.length + 2)

/-- A single literal character. -/
def chr (c : Char) : RE := .cls fun x => x = c

/-- A single literal character under `re.I`. -/
def chrCI (c : Char) : RE := .cls fun x => x.toLower = c.toLower

def seqs (l : List RE) : RE := l.foldr .seq .eps

def alts : List RE → RE
  | [] => .cls fun _ => false
  | [r] => r
  | r :: rest => .alt r (alts rest)

def lit (w : String) : RE := seqs (w.toList.map chr)

def litCI (w : String) : RE := seqs (w.toList.map chrCI)

/-- Substring containment, Python `needle in hay`. -/
def containsSub (hay needle : List Char) : Bool :=
  (List.range (hay.length + 1)).any fun i => needle.isPrefixOf (hay.drop i)

def digitC : RE := .cls fun c => c.isDigit

def spaceC : RE := .cls isPySpace

/-- The `[-.\s]` of `PHONE`. -/
def phoneSepC : RE := .cls fun c => c = '-' || c = '.' || isPySpace c

/-- The `[ -]` / `[- ]` of `CARD` and `POLICY`. -/
def spaceDashC : RE := .cls fun c => c = ' ' || c = '-'

/-- The `PHONE = \b(?:\+?1[-.\s]?)?\(?\d{3}\)?[-.\s]?\d{3}[-.\s]?\d{4}\b`. -/
def PHONE : RE :=
  seqs [.bnd,
    .opt (seqs [.opt (chr '+'), chr '1', .opt phoneSepC]),
    .opt (chr '('), rep digitC 3 3, .opt (chr ')'),
    .opt phoneSepC, rep digitC 3 3, .opt phoneSepC, rep digitC 4 4, .bnd]

/-- The `EMAIL = \b[A-Z0-9._%+-]+@[A-Z0-9.-]+\.[A-Z]{2,}\b` with `re.I`. -/
def EMAIL (n : Nat) : RE :=
  seqs [.bnd,
    rep (.cls fun c => c.isAlpha || c.isDigit || c = '.' || c = '_' ||
      c = '%' || c = '+' || c = '-') 1 n,
    chr '@',
    rep (.cls fun c => c.isAlpha || c.isDigit || c = '.' || c = '-') 1 n,
    chr '.', rep (.cls fun c => c.isAlpha) 2 n, .bnd]

/-- The `ADDRESS` (street-like addresses, `re.I`):
`\b\d{1,5}\s+(?:[A-Za-z0-9.\-']+\s)+(?:St|Street|...|Way)\b`. -/
def ADDRESS (n : Nat) : RE :=
  seqs [.bnd, rep digitC 1 5, rep spaceC 1 n,
    rep (.seq (rep (.cls fun c => c.isAlpha || c.isDigit || c = '.' ||
      c = '-' || c.toNat = 39) 1 n) spaceC) 1 n,
    alts [litCI "St", litCI "Street", litCI "Ave", litCI "Avenue", litCI "Rd",
      litCI "Road", litCI "Blvd", litCI "Boulevard", litCI "Ln", litCI "Lane",
      litCI "Dr", litCI "Drive", litCI "Way"],
    .bnd]

def ADDRESS_HINTS : List String :=
  [" apt ", " suite ", " unit ",
   " street", " st.", " st ", " avenue", " ave", " blvd", " road", " rd",
   " lane", " ln", " drive", " dr", " way"]

/-- The `SSN = \b\d{3}-\d{2}-\d{4}\b`. -/
def SSN : RE :=
  seqs [.bnd, rep digitC 3 3, chr '-', rep digitC 2 2, chr '-',
    rep digitC 4 4, .bnd]

/-- The `CARD = \b(?:\d[ -]?){13,19}\b`. -/
def CARD : RE := seqs [.bnd, rep (.seq digitC (.opt spaceDashC)) 13 19, .bnd]

/-- The `POLICY = \b(?:DL|ID|POLICY|POL|INS|LIC)[ -]?[A-Z0-9]{2,}[- ]?[A-Z0-9]{2,}\b`
with `re.I`. -/
def POLICY (n : Nat) : RE :=
  seqs [.bnd,
    alts [litCI "DL", litCI "ID", litCI "POLICY", litCI "POL", litCI "INS",
      litCI "LIC"],
    .opt spaceDashC, rep (.cls fun c => c.isAlpha || c.isDigit) 2 n,
    .opt spaceDashC, rep (.cls fun c => c.isAlpha || c.isDigit) 2 n, .bnd]

def CARD_KEYWORDS : List String :=
  ["card", "visa", "mastercard", "amex", "credit", "debit", "number", "cvv"]

/-- The `OTP6 = \b\d{6}\b`. -/
def OTP6 : RE := seqs [.bnd, rep digitC 6 6, .bnd]

/-- The `PIN4 = \b\d{4}\b`. -/
def PIN4 : RE := seqs [.bnd, rep digitC 4 4, .bnd]

/-- The `STRIPE = \bsk_(?:live|test)_[A-Za-z0-9]+\b`. -/
def STRIPE (n : Nat) : RE :=
  seqs [.bnd, lit "sk_", alts [lit "live", lit "test"], chr '_',
    rep (.cls fun c => c.isAlpha || c.isDigit) 1 n, .bnd]

/-- The `SLACK = \bxox[aboprs]-[A-Za-z0-9-]+\b`. -/
def SLACK (n : Nat) : RE :=
  seqs [.bnd, lit "xox",
    .cls (fun c => c = 'a' || c = 'b' || c = 'o' || c = 'p' || c = 'r' || c = 's'),
    chr '-', rep (.cls fun c => c.isAlpha || c.isDigit || c = '-') 1 n, .bnd]

/-- The `SSH = \bAAAAB3Nza[^\s]{10,}\b`. -/
def SSH (n : Nat) : RE :=
  seqs [.bnd, lit "AAAAB3Nza", rep (.cls fun c => !isPySpace c) 10 n, .bnd]

def TOKEN_WORDS : List String :=
  ["token", "password", "passcode", "pin", "otp", "secret", "webhook",
   "api key", "login", "passphrase"]

/-- The `PASS_ASSIGN = \b(pass|password|passcode)\b\s*[:=]\s*(\S+)` with `re.I`. -/
def PASS_ASSIGN (n : Nat) : RE :=
  seqs [.bnd, alts [litCI "pass", litCI "password", litCI "passcode"], .bnd,
    rep spaceC 0 n, .cls (fun c => c = ':' || c = '='), rep spaceC 0 n,
    rep (.cls fun c => !isPySpace c) 1 n]

/-- The `QR = \bqr\b` with `re.I`. -/
def QR : RE := seqs [.bnd, litCI "qr", .bnd]

/-- The `BARCODE = \bbarcode\b` with `re.I`. -/
def BARCODE : RE := seqs [.bnd, litCI "barcode", .bnd]

/-- The `PLATE = \blicense plate\b` with `re.I`. -/
def PLATE : RE := seqs [.bnd, litCI "license plate", .bnd]

/-- The `VIN = \b[0-9A-HJ-NPR-Z]{17}\b` (VIN excludes I/O/Q; case-sensitive). -/
def VIN : RE :=
  seqs [.bnd,
    rep (.cls fun c => c.isDigit ||
      (c.isUpper && c ≠ 'I' && c ≠ 'O' && c ≠ 'Q')) 17 17, .bnd]

/-- The `TRACKING = \b1Z[0-9A-Z ]{12,}\b`. -/
def TRACKING (n : Nat) : RE :=
  seqs [.bnd, lit "1Z",
    rep (.cls fun c => c.isDigit || c.isUpper || c = ' ') 12 n, .bnd]

/-- The `RESCODE = \b[A-Z0-9]{2,4}-[A-Z0-9]{2,4}\b` (case-sensitive). -/
def RESCODE : RE :=
  seqs [.bnd, rep (.cls fun c => c.isUpper || c.isDigit) 2 4, chr '-',
    rep (.cls fun c => c.isUpper || c.isDigit) 2 4, .bnd]

/-- The `SERIAL = \bSN[- ]?[A-Z0-9-]{4,}\b` with `re.I`. -/
def SERIAL (n : Nat) : RE :=
  seqs [.bnd, litCI "SN", .opt spaceDashC,
    rep (.cls fun c => c.isAlpha || c.isDigit || c = '-') 4 n, .bnd]

/-- The `TIME = \b(?:[01]?\d|2[0-3]):[0-5]\d\b|\b(?:\d{1,2})(?::\d{2})?\s?(?:am|pm)\b`
with `re.I`. -/
def TIME : RE :=
  .alt
    (seqs [.bnd,
      .alt (.seq (.opt (.cls fun c => c = '0' || c = '1')) digitC)
        (.seq (chr '2') (.cls fun c => c = '0' || c = '1' || c = '2' || c = '3')),
      chr ':', .cls (fun c => '0' ≤ c && c ≤ '5'), digitC, .bnd])
    (seqs [.bnd, rep digitC 1 2, .opt (.seq (chr ':') (rep digitC 2 2)),
      .opt spaceC, alts [litCI "am", litCI "pm"], .bnd])

def TIME_WORDS : List String :=
  ["am", "pm", "noon", "midnight", "tonight", "tomorrow", "today",
   "friday", "saturday", "sunday", "monday", "tuesday", "wednesday", "thursday",
   "next week", "this weekend", "tonite", "tmrw"]

def HEALTH_WORDS : List String :=
  ["ocd", "ptsd", "insulin", "covid", "ssri", "strep", "methadone", "migraine",
   "sober", "therapy", "therapist", "diagnosed", "depression", "anxiety",
   "hiv", "diabetes", "cancer", "aura", "clinic"]

def WORK_WORDS : List String :=
  ["nda", "private repo", "confidential", "client", "launch date", "beta",
   "irb", "pilot", "pay bands", "internal", "anonymized transcripts",
   "dataset", "grades", "midterm", "study", "partner hospital", "api key",
   "staging", "do not share", "under embargo", "non-public"]

def MINOR_CUES : List String :=
  ["my son", "my daughter", "my kid", "my toddler", "my niece", "my nephew",
   "kids\u2019", "kids\x27", "grade", "homeroom", "elementary", "middle",
   "high school", "preschool", "bus stop", "carpool", "room "]

/-- The scanning loop of `find_spans` (`detector.py` lines 93-104): repeated
lowercased `str.find` advancing past each hit (every needle used is
non-empty, so the fuel below never runs out before the loop's own exit). -/
def findSpansAux (text nlow : List Char) (nlen : Nat) :
    Nat → Nat → List (Nat × Nat × List Char)
  | _, 0 => []
  | start, fuel + 1 =>
    match strFind (lowerStr text) nlow start with
    | none => []
    | some i =>
      (i, i + nlen, pySlice text i (i + nlen)) ::
        findSpansAux text nlow nlen (i + nlen) fuel

/-- The `find_spans` (`detector.py` lines 93-104). -/
def find_spans (text needle : List Char) : List (Nat × Nat × List Char) :=
  findSpansAux text (lowerStr needle) needle.length 0 (text.length + 2)

/-! ### `Detector.analyze`

`analyze` is embedded as the ordered sequence of `_add` calls it performs
(`analyzeOps`), folded through the `_add` state update (`addSpan`) and then
finalized exactly as lines 208-213 do.  The optional spaCy entity-recognition
collaborator is disabled (`detector.py` treats it as optional and it is
external to the core). -/

/-- One `_add(result, label, start, end, text)` call. -/
abbrev AddOp := String × Nat × Nat × List Char

def opsOfMatches (label : String) (ms : List (Nat × Nat)) (text : List Char) :
    List AddOp :=
  ms.map fun m => (label, m.1, m.2, pySlice text m.1 m.2)

/-- The ordered `_add` calls of `Detector.analyze` (`detector.py`
lines 124-194). -/
def analyzeOps (text : List Char) : List AddOp :=
  let n := text.length
  let tlow := lowerStr text
  opsOfMatches "Contact&IDs" (finditer PHONE text) text ++
  opsOfMatches "Contact&IDs" (finditer (EMAIL n) text) text ++
  opsOfMatches "Contact&IDs" (finditer (ADDRESS n) text) text ++
  (ADDRESS_HINTS.flatMap fun hint =>
    (find_spans tlow hint.toList).filterMap fun se =>
      if 10 ≤ se.1 then some ("Contact&IDs", se.1, se.2.1, pySlice text se.1 se.2.1)
      else none) ++
  opsOfMatches "Gov&Financial IDs" (finditer SSN text) text ++
  ((finditer CARD text).filterMap fun m =>
    let window := lowerStr (pySlice text (m.1 - 16) (m.2 + 16))
    if CARD_KEYWORDS.any (fun k => containsSub window k.toList) then
      let digits := (pySlice text m.1 m.2).filter Char.isDigit
      if 13 ≤ digits.length ∧ digits.length ≤ 19 then
        some ("Gov&Financial IDs", m.1, m.2, pySlice text m.1 m.2)
      else none
    else none) ++
  opsOfMatches "Gov&Financial IDs" (finditer (POLICY n) text) text ++
  opsOfMatches "Credentials&Security" (finditer (STRIPE n) text) text ++
  opsOfMatches "Credentials&Security" (finditer (SLACK n) text) text ++
  opsOfMatches "Credentials&Security" (finditer (SSH n) text) text ++
  opsOfMatches "Credentials&Security" (finditer (PASS_ASSIGN n) text) text ++
  (if TOKEN_WORDS.any (fun w => containsSub tlow w.toList) then
    opsOfMatches "Credentials&Security" (finditer PIN4 text) text ++
    opsOfMatches "Credentials&Security" (finditer OTP6 text) text
  else []) ++
  opsOfMatches "Metadata/Device" (finditer QR text) text ++
  opsOfMatches "Metadata/Device" (finditer BARCODE text) text ++
  opsOfMatches "Metadata/Device" (finditer PLATE text) text ++
  opsOfMatches "Metadata/Device" (finditer VIN text) text ++
  opsOfMatches "Metadata/Device" (finditer (TRACKING n) text) text ++
  opsOfMatches "Metadata/Device" (finditer RESCODE text) text ++
  opsOfMatches "Metadata/Device" (finditer (SERIAL n) text) text ++
  opsOfMatches "Location&Time" (finditer TIME text) text ++
  (TIME_WORDS.flatMap fun w =>
    (find_spans tlow w.toList).map fun se =>
      ("Location&Time", se.1, se.2.1, pySlice text se.1 se.2.1)) ++
  (HEALTH_WORDS.flatMap fun w =>
    (find_spans tlow w.toList).map fun se =>
      ("Health&Sensitive", se.1, se.2.1, pySlice text se.1 se.2.1)) ++
  (WORK_WORDS.flatMap fun w =>
    (find_spans tlow w.toList).map fun se =>
      ("Workplace/Academic", se.1, se.2.1, pySlice text se.1 se.2.1)) ++
  (MINOR_CUES.flatMap fun w =>
    (find_spans tlow w.toList).map fun se =>
      ("Minors", se.1, se.2.1, pySlice text se.1 se.2.1))

/-- The building result of `analyze` before finalization: the `labels` set
(insertion order, deduplicated — Python's `set`) and the `spans` dict
label → list (Python's insertion-ordered `dict`). -/
structure BuildState where
  labels : List String
  spans : List (String × List Span)
deriving DecidableEq

/-- Append into `result["spans"].setdefault(label, [])`. -/
def bucketAppend : List (String × List Span) → String → Span →
    List (String × List Span)
  | [], label, sp => [(label, [sp])]
  | (k, ss) :: rest, label, sp =>
    if k = label then (k, ss ++ [sp]) :: rest
    else (k, ss) :: bucketAppend rest label sp

/-- The `Detector._add` (`detector.py` lines 118-122). -/
def addSpan (st : BuildState) (label : String) (s e : Nat) (txt : List Char) :
    BuildState where
  labels := if label ∈ st.labels then st.labels else st.labels ++ [label]
  spans := bucketAppend st.spans label ⟨s, e, txt, label⟩

def runOps (ops : List AddOp) : BuildState :=
  ops.foldl (fun st op => addSpan st op.1 op.2.1 op.2.2.1 op.2.2.2) ⟨[], []⟩

/-- The uniform result shape `{"labels", "spans", "explanations"}`. -/
structure AnalysisResult where
  labels : List String
  spans : List Span
  explanations : List (String × String)
deriving DecidableEq

/-- The finalization step of `analyze` (`detector.py` lines 208-213):
`labels = sorted(list(labels))` and the spans dict flattened in insertion
order; `analyze` never fills `explanations`. -/
def finalize (st : BuildState) : AnalysisResult where
  labels := List.insertionSort (fun a b => a ≤ b) st.labels
  spans := st.spans.flatMap Prod.snd
  explanations := []

/-- The `Detector.analyze` (`detector.py` lines 124-214): run the `_add` calls,
then finalize. -/
def analyze (text : List Char) : AnalysisResult :=
  finalize (runOps (analyzeOps text))

/-! ### The prediction entry points (`predictors.py`) -/

/-- The `predict_rules` (`predictors.py` lines 195-197). -/
def predict_rules (text : List Char) : AnalysisResult :=
  let out := analyze text
  { labels := out.labels, spans := out.spans, explanations := [] }

/-- The parsed JSON response of the external Risk Classifier collaborator, as
`_generate_openai` returns it: `{"labels", "spans_text", "explanations"}`
with arbitrary content. -/
structure ClassifierOut where
  labels : List String
  spans_text : List Hint
  explanations : List (String × String)
deriving DecidableEq

/-- The `"None"`-stripping of `predict_prompt_only` / `predict_hybrid`
(`predictors.py` lines 204-205, 226-227): `any(l for l in labels if l !=
"None")` tests for a *truthy* (non-empty) label other than `"None"`. -/
def stripNone (labels : List String) : List String :=
  if (∃ l ∈ labels, l ≠ "None" ∧ l ≠ "") ∧ "None" ∈ labels then
    labels.filter fun l => l ≠ "None"
  else labels

/-- The `predict_prompt_only` (`predictors.py` lines 199-207), parametrized by the
external classifier's response. -/
def predict_prompt_only (resp : ClassifierOut) (text : List Char) :
    AnalysisResult where
  labels := stripNone resp.labels
  spans := _attach_offsets text resp.spans_text
  explanations := resp.explanations

/-- The `predict_hybrid` (`predictors.py` lines 209-229), parametrized by the
external classifier's response; its result assembly is identical to
`predict_prompt_only` (the detector-derived hints only shape the prompt sent
to the external collaborator). -/
def predict_hybrid (resp : ClassifierOut) (text : List Char) :
    AnalysisResult where
  labels := stripNone resp.labels
  spans := _attach_offsets text resp.spans_text
  explanations := resp.explanations

/-! ### The `_add` discipline: labels versus span categories -/

/-- Invariant maintained by every `_add` call: the labels set is exactly the
(duplicate-free) key list of the spans dict, every bucket is non-empty and
holds only spans carrying its own label. -/
def goodState (st : BuildState) : Prop :=
  st.labels = st.spans.map Prod.fst ∧
    (st.spans.map Prod.fst).Nodup ∧
    ∀ p ∈ st.spans, p.2 ≠ [] ∧ ∀ sp ∈ p.2, sp.label = p.1

/-- The span produced by one `_add` call. -/
def mkSpanOp (op : AddOp) : Span := ⟨op.2.1, op.2.2.1, op.2.2.2, op.1⟩

/-! ### Render-time explanation assembly (`app.py` lines 91-94) -/

/-- Python `dict.setdefault` on an insertion-ordered association list. -/
def setdefault (m : List (String × String)) (k v : String) :
    List (String × String) :=
  if m.any (fun kv => kv.1 = k) then m else m ++ [(k, v)]

/-- The generic fallback message of `render_block`. -/
def genericMsg : String := "Potential privacy risk matched by this highlight."

/-- The explanation assembly of `render_block` (`app.py` lines 91-94):
`expl = pred.get("explanations") or {}`; only when that mapping is entirely
empty (and labels are present) is each label given the generic fallback. -/
def renderExplanations (pred : AnalysisResult) : List (String × String) :=
  if pred.explanations = [] ∧ pred.labels ≠ [] then
    pred.labels.foldl (fun e lab => setdefault e lab genericMsg) pred.explanations
  else pred.explanations

/-- Zero-width atoms: they match without consuming characters. -/
inductive ZW : RE → Prop
  | eps : ZW .eps
  | bnd : ZW .bnd

/-- The `FF q r`: every match of `r` consumes at least one character and its
first character satisfies `q`. -/
inductive FF (q : Char → Bool) : RE → Prop
  | cls {p : Char → Bool} : (∀ c, p c = true → q c = true) → FF q (.cls p)
  | seq_left {a b : RE} : FF q a → FF q (.seq a b)
  | seq_zw {a b : RE} : ZW a → FF q b → FF q (.seq a b)
  | alt {a b : RE} : FF q a → FF q b → FF q (.alt a b)

/-! ## Theorems -/

/-- The greedy loop only ever drops elements: its output is a sublist of its
input. -/
theorem nonOverlapGo_sublist : ∀ (l : List Span) (e : Int),
    List.Sublist (nonOverlapGo l e) l := by
  intro l
  induction l with
  | nil => intro e; simp [nonOverlapGo]
  | cons a rest ih =>
    intro e
    by_cases hc : e ≤ (a.start : Int)
    · simpa [nonOverlapGo, if_pos hc] using (ih a.«end»).cons₂ a
    · simpa [nonOverlapGo, if_neg hc] using (ih e).cons a

/-- Re-running the greedy loop on its own output (with the same initial
`lastEnd`) changes nothing. -/
theorem nonOverlapGo_idem : ∀ (l : List Span) (e : Int),
    nonOverlapGo (nonOverlapGo l e) e = nonOverlapGo l e := by
  intro l
  induction l with
  | nil => intro e; simp [nonOverlapGo]
  | cons a rest ih =>
    intro e
    by_cases hc : e ≤ (a.start : Int)
    · simp only [nonOverlapGo, if_pos hc]
      rw [ih a.«end»]
    · simp only [nonOverlapGo, if_neg hc]
      exact ih e

/-- If every input span has `start < end`, the greedy loop emits only spans
starting at or after `lastEnd`, and its output is pairwise ordered-disjoint
(each span ends at or before the next begins). -/
theorem nonOverlapGo_pairwise :
    ∀ (l : List Span) (lastEnd : Int),
      (∀ s ∈ l, s.start < s.«end») →
      (∀ s ∈ nonOverlapGo l lastEnd, lastEnd ≤ (s.start : Int)) ∧
        (nonOverlapGo l lastEnd).Pairwise (fun a b => a.«end» ≤ b.start) := by
  intro l
  induction l with
  | nil => intro lastEnd _; simp [nonOverlapGo]
  | cons a rest ih =>
    intro lastEnd hv
    have hva : a.start < a.«end» := hv a (List.mem_cons_self ..)
    have hvr : ∀ s ∈ rest, s.start < s.«end» :=
      fun s hs => hv s (List.mem_cons_of_mem _ hs)
    by_cases hc : lastEnd ≤ (a.start : Int)
    · have hi := ih a.«end» hvr
      simp only [nonOverlapGo, if_pos hc]
      constructor
      · intro s hs
        rcases List.mem_cons.mp hs with h | h
        · exact h ▸ hc
        · have h1 : (a.«end» : Int) ≤ (s.start : Int) := hi.1 s h
          have h2 : lastEnd ≤ (a.«end» : Int) :=
            hc.trans (by exact_mod_cast le_of_lt hva)
          exact h2.trans h1
      · refine List.pairwise_cons.mpr ⟨?_, hi.2⟩
        intro s hs
        exact_mod_cast hi.1 s hs
    · simp only [nonOverlapGo, if_neg hc]
      exact ih lastEnd hvr

theorem nonOverlapGo_nil (e : Int) : nonOverlapGo [] e = [] := rfl

theorem nonOverlapGo_cons_accept (s : Span) (rest : List Span) (e : Int)
    (h : e ≤ (s.start : Int)) :
    nonOverlapGo (s :: rest) e = s :: nonOverlapGo rest s.«end» := by
  simp [nonOverlapGo, h]

theorem nonOverlapGo_cons_skip (s : Span) (rest : List Span) (e : Int)
    (h : ¬ e ≤ (s.start : Int)) :
    nonOverlapGo (s :: rest) e = nonOverlapGo rest e := by
  simp [nonOverlapGo, h]

/-- C1. For every input sequence of spans with valid bounds, `_non_overlapping`
returns a sequence in which no two spans share any character offset (each span
ends at or before the next one starts) and the spans are sorted ascending by
start offset. -/
theorem reconcile_nonoverlap_sorted (spans : List Span)
    (hv : ∀ s ∈ spans, s.start < s.«end») :
    (_non_overlapping spans).Pairwise (fun a b => a.«end» ≤ b.start) ∧
      (_non_overlapping spans).Sorted (fun a b => a.start ≤ b.start) := by
  have hvs : ∀ s ∈ List.insertionSort spanLE spans, s.start < s.«end» := by
    intro s hs
    exact hv s ((List.perm_insertionSort spanLE spans).mem_iff.mp hs)
  have hp := nonOverlapGo_pairwise (List.insertionSort spanLE spans) (-1) hvs
  refine ⟨hp.2, ?_⟩
  have hvo : ∀ s ∈ _non_overlapping spans, s.start < s.«end» := by
    intro s hs
    exact hvs s ((nonOverlapGo_sublist _ _).subset hs)
  exact hp.2.imp_of_mem (fun ha _ hr => ((hvo _ ha).le.trans hr).trans' (le_refl _))

/-- Closed witness for `reconcile_nonoverlap_sorted` at the spec's scenario
input `[{0,10,"Contact&IDs"}, {2,6,"Location&Time"}]`. -/
theorem reconcile_nonoverlap_sorted_witness :
    (∀ s ∈ ([⟨0, 10, [], "Contact&IDs"⟩, ⟨2, 6, [], "Location&Time"⟩] : List Span),
        s.start < s.«end») ∧
      ((_non_overlapping [⟨0, 10, [], "Contact&IDs"⟩, ⟨2, 6, [], "Location&Time"⟩]).Pairwise
          (fun a b => a.«end» ≤ b.start) ∧
        (_non_overlapping [⟨0, 10, [], "Contact&IDs"⟩, ⟨2, 6, [], "Location&Time"⟩]).Sorted
          (fun a b => a.start ≤ b.start)) :=
  ⟨by decide, reconcile_nonoverlap_sorted _ (by decide)⟩

/-- C4. Reconciliation is idempotent: applying `_non_overlapping` twice yields
the same result as applying it once, for every input sequence of spans. -/
theorem reconcile_idempotent (spans : List Span) :
    _non_overlapping (_non_overlapping spans) = _non_overlapping spans := by
  show nonOverlapGo (List.insertionSort spanLE
      (nonOverlapGo (List.insertionSort spanLE spans) (-1))) (-1) =
    nonOverlapGo (List.insertionSort spanLE spans) (-1)
  have hs : (nonOverlapGo (List.insertionSort spanLE spans) (-1)).Sorted spanLE :=
    List.Pairwise.sublist (nonOverlapGo_sublist _ _)
      (List.sorted_insertionSort spanLE spans)
  rw [List.Sorted.insertionSort_eq hs, nonOverlapGo_idem]

/-- C5. Given a pair of candidate spans with the same start offset but
different lengths, `_non_overlapping` keeps the longer span and discards the
shorter one, whichever order the pair arrives in. -/
theorem reconcile_same_start_keeps_longer (a b : Span)
    (hstart : a.start = b.start) (hshorter : b.«end» < a.«end»)
    (hva : a.start < a.«end») :
    _non_overlapping [a, b] = [a] ∧ _non_overlapping [b, a] = [a] := by
  have hab : spanLE a b := Or.inr ⟨hstart, by omega⟩
  have hba : ¬ spanLE b a := by
    intro h
    rcases h with h | ⟨_, h2⟩ <;> omega
  have c1 : (-1 : Int) ≤ (a.start : Int) := by omega
  have c2 : ¬ ((a.«end» : Int) ≤ (b.start : Int)) := by omega
  have hsort1 : List.insertionSort spanLE [a, b] = [a, b] := by
    simp only [List.insertionSort, List.orderedInsert]
    rw [if_pos hab]
  have hsort2 : List.insertionSort spanLE [b, a] = [a, b] := by
    simp only [List.insertionSort, List.orderedInsert]
    rw [if_neg hba]
  constructor
  · show nonOverlapGo (List.insertionSort spanLE [a, b]) (-1) = [a]
    rw [hsort1, nonOverlapGo_cons_accept _ _ _ c1,
      nonOverlapGo_cons_skip _ _ _ c2, nonOverlapGo_nil]
  · show nonOverlapGo (List.insertionSort spanLE [b, a]) (-1) = [a]
    rw [hsort2, nonOverlapGo_cons_accept _ _ _ c1,
      nonOverlapGo_cons_skip _ _ _ c2, nonOverlapGo_nil]

/-- Closed witness for `reconcile_same_start_keeps_longer`: two spans starting
at offset 3, of lengths 7 and 2. -/
theorem reconcile_same_start_keeps_longer_witness :
    ((⟨3, 10, [], "Minors"⟩ : Span).start = (⟨3, 5, [], "Minors"⟩ : Span).start ∧
        (⟨3, 5, [], "Minors"⟩ : Span).«end» < (⟨3, 10, [], "Minors"⟩ : Span).«end» ∧
        (⟨3, 10, [], "Minors"⟩ : Span).start < (⟨3, 10, [], "Minors"⟩ : Span).«end») ∧
      (_non_overlapping [⟨3, 10, [], "Minors"⟩, ⟨3, 5, [], "Minors"⟩] =
          [⟨3, 10, [], "Minors"⟩] ∧
        _non_overlapping [⟨3, 5, [], "Minors"⟩, ⟨3, 10, [], "Minors"⟩] =
          [⟨3, 10, [], "Minors"⟩]) :=
  ⟨by decide, reconcile_same_start_keeps_longer _ _ (by decide) (by decide) (by decide)⟩

theorem isPrefixOf_length_le :
    ∀ {l₁ l₂ : List Char}, l₁.isPrefixOf l₂ = true → l₁.length ≤ l₂.length := by
  intro l₁
  induction l₁ with
  | nil => intro l₂ _; simp
  | cons a as ih =>
    intro l₂ h
    cases l₂ with
    | nil => simp [List.isPrefixOf] at h
    | cons b bs =>
      simp only [List.isPrefixOf, Bool.and_eq_true] at h
      simpa using ih h.2

/-- Soundness of `strFind`: a hit is at or after `start` and the whole
occurrence fits inside `s`. -/
theorem strFind_bound {s sub : List Char} {c i : Nat}
    (h : strFind s sub c = some i) :
    c ≤ i ∧ i + sub.length ≤ s.length := by
  have hp := List.find?_some h
  have hm := List.mem_of_find?_eq_some h
  simp only [Bool.and_eq_true, decide_eq_true_eq] at hp
  have hi : i < s.length + 1 := List.mem_range.mp hm
  have hlen : sub.length ≤ (s.drop i).length := isPrefixOf_length_le hp.2
  rw [List.length_drop] at hlen
  exact ⟨hp.1, by omega⟩

theorem lowerChar_length_pos (c : Char) : 1 ≤ (lowerChar c).length := by
  unfold lowerChar
  by_cases h : c = 'İ' <;> simp [h]

/-- Lowering never shortens a string (it lengthens it at every `İ`). -/
theorem length_le_lowerStr : ∀ (s : List Char), s.length ≤ (lowerStr s).length := by
  intro s
  unfold lowerStr
  induction s with
  | nil => simp
  | cons c cs ih =>
    have h1 := lowerChar_length_pos c
    simp only [List.flatMap_cons, List.length_append, List.length_cons]
    omega

/-- Soundness of the four-stage search: a found start leaves the whole
fragment inside the source *or* inside its lowered form — a case-insensitive
stage searches the lowered text, whose length may exceed the source's. -/
theorem findStart_bound {text frag : List Char} {c i : Nat}
    (h : findStart text frag c = some i) :
    i + frag.length ≤ max text.length (lowerStr text).length := by
  have hlowf : frag.length ≤ (lowerStr frag).length := length_le_lowerStr frag
  unfold findStart at h
  cases h1 : strFind text frag c with
  | some j =>
    rw [h1] at h; cases h
    have := (strFind_bound h1).2
    omega
  | none =>
    rw [h1] at h
    cases h2 : strFind (lowerStr text) (lowerStr frag) c with
    | some j =>
      rw [h2] at h; cases h
      have := (strFind_bound h2).2
      omega
    | none =>
      rw [h2] at h
      cases h3 : strFind text frag 0 with
      | some j =>
        rw [h3] at h; cases h
        have := (strFind_bound h3).2
        omega
      | none =>
        rw [h3] at h
        have := (strFind_bound h).2
        omega

theorem attachGo_nil (text : List Char) (cursor : Nat) :
    attachGo text [] cursor = [] := rfl

theorem attachGo_cons_empty {hd : Hint} (text : List Char) (rest : List Hint)
    (cursor : Nat) (he : hd.text = []) :
    attachGo text (hd :: rest) cursor = attachGo text rest cursor := by
  simp [attachGo, he]

theorem attachGo_cons_none {hd : Hint} (text : List Char) (rest : List Hint)
    (cursor : Nat) (he : hd.text ≠ [])
    (h1 : findStart text hd.text cursor = none) :
    attachGo text (hd :: rest) cursor = attachGo text rest cursor := by
  simp [attachGo, he, h1]

theorem attachGo_cons_some {hd : Hint} {start : Nat} (text : List Char)
    (rest : List Hint) (cursor : Nat) (he : hd.text ≠ [])
    (h1 : findStart text hd.text cursor = some start) :
    attachGo text (hd :: rest) cursor =
      ⟨start, start + hd.text.length,
          pySlice text start (start + hd.text.length), hd.label⟩ ::
        attachGo text rest (start + hd.text.length) := by
  simp [attachGo, he, h1]

/-- C2, general form over any cursor: every span the relocation loop emits has
its `text` re-sliced from the source at the found offsets. -/
theorem attachGo_text_resliced (text : List Char) :
    ∀ (hints : List Hint) (cursor : Nat) (sp : Span),
      sp ∈ attachGo text hints cursor →
      sp.text = pySlice text sp.start sp.«end» := by
  intro hints
  induction hints with
  | nil => intro cursor sp h; simp [attachGo] at h
  | cons hd rest ih =>
    intro cursor sp h
    by_cases he : hd.text = []
    · rw [attachGo_cons_empty text rest cursor he] at h
      exact ih cursor sp h
    · cases h1 : findStart text hd.text cursor with
      | none =>
        rw [attachGo_cons_none text rest cursor he h1] at h
        exact ih cursor sp h
      | some start =>
        rw [attachGo_cons_some text rest cursor he h1] at h
        rcases List.mem_cons.mp h with h2 | h2
        · subst h2; rfl
        · exact ih _ sp h2

/-- C2. Every `Span` produced by `_attach_offsets` satisfies
`text == source[start:end]`: the text field is re-sliced from the source at
the found offsets, never taken from the hint's original literal (so it is
exact even when the hint differed from the source in case). -/
theorem relocate_text_resliced (text : List Char) (hints : List Hint)
    (sp : Span) (h : sp ∈ _attach_offsets text hints) :
    sp.text = pySlice text sp.start sp.«end» :=
  attachGo_text_resliced text hints 0 sp h

/-- Closed witness for `relocate_text_resliced` at the spec's scenario: the
hint `{"Minors", "My Toddler"}` differs in case from the source
`"my toddler is napping"`; the produced span's text is the lowercase source
slice. -/
theorem relocate_text_resliced_witness :
    ((⟨0, 10, "my toddler".toList, "Minors"⟩ : Span) ∈
        _attach_offsets "my toddler is napping".toList
          ([⟨"Minors", "My Toddler".toList⟩] : List Hint)) ∧
      (⟨0, 10, "my toddler".toList, "Minors"⟩ : Span).text =
        pySlice "my toddler is napping".toList 0 10 :=
  ⟨by decide,
    relocate_text_resliced "my toddler is napping".toList
      [⟨"Minors", "My Toddler".toList⟩] ⟨0, 10, "my toddler".toList, "Minors"⟩
      (by decide)⟩

/-- General form over any cursor: every emitted span has `start < end` with
`end` equal to start plus the matched fragment's length, and `end` bounded by
the longer of the source and its lowered form (a case-insensitive stage can
place the match past the source's own length). -/
theorem attachGo_bounds (text : List Char) :
    ∀ (hints : List Hint) (cursor : Nat) (sp : Span),
      sp ∈ attachGo text hints cursor →
      sp.start < sp.«end» ∧ sp.«end» ≤ max text.length (lowerStr text).length ∧
        ∃ hnt ∈ hints, hnt.text ≠ [] ∧ sp.«end» = sp.start + hnt.text.length := by
  intro hints
  induction hints with
  | nil => intro cursor sp h; simp [attachGo] at h
  | cons hd rest ih =>
    intro cursor sp h
    by_cases he : hd.text = []
    · rw [attachGo_cons_empty text rest cursor he] at h
      rcases ih cursor sp h with ⟨h1, h2, hnt, hm, h3⟩
      exact ⟨h1, h2, hnt, List.mem_cons_of_mem _ hm, h3⟩
    · cases h1 : findStart text hd.text cursor with
      | none =>
        rw [attachGo_cons_none text rest cursor he h1] at h
        rcases ih cursor sp h with ⟨h1, h2, hnt, hm, h3⟩
        exact ⟨h1, h2, hnt, List.mem_cons_of_mem _ hm, h3⟩
      | some start =>
        rw [attachGo_cons_some text rest cursor he h1] at h
        rcases List.mem_cons.mp h with h2 | h2
        · subst h2
          have hb := findStart_bound h1
          have hpos : 0 < hd.text.length := List.length_pos.mpr he
          refine ⟨?_, ?_, hd, List.mem_cons_self .., he, rfl⟩
          · show start < start + hd.text.length
            omega
          · show start + hd.text.length ≤ max text.length (lowerStr text).length
            omega
        · rcases ih _ sp h2 with ⟨h3, h4, hnt, hm, h5⟩
          exact ⟨h3, h4, hnt, List.mem_cons_of_mem _ hm, h5⟩

/-- C10 counterexample.  Over the source `"İabc"` (4 characters) with the
hint fragment `"BC"`, the exact searches fail and the case-insensitive stage
searches `lower("İabc") = "i" + U+0307 + "abc"` (5 characters), finding
`"bc"` at index 3; relocation then emits the span `{start 3, end 5}` whose
end offset exceeds the source length 4 (the re-slice clamps to `"c"`), so
`end ≤ length source` does not hold for case-insensitive fallback matches. -/
theorem relocate_bounds_counterexample :
    ((⟨3, 5, ['c'], "Contact&IDs"⟩ : Span) ∈
        _attach_offsets "İabc".toList ([⟨"Contact&IDs", "BC".toList⟩] : List Hint)) ∧
      "İabc".toList.length = 4 ∧
      ¬ ((⟨3, 5, ['c'], "Contact&IDs"⟩ : Span).«end» ≤ "İabc".toList.length) := by
  refine ⟨by decide, by decide, by decide⟩

/-- C10 (amended).  Every span returned by `_attach_offsets` has
`0 ≤ start < end` with `end = start + length fragment` for the (non-empty)
hint fragment it matched, and `end` never exceeds the longer of the source
and its lowercased form; `end ≤ length source` itself is guaranteed whenever
lowering preserves the source's length (in particular for any source without
`İ`), but a case-insensitive fallback match can otherwise place `end` past
the end of the source — the subsequent re-slice still never goes out of
range, because slicing clamps. -/
theorem relocate_bounds_amended (text : List Char) (hints : List Hint)
    (sp : Span) (h : sp ∈ _attach_offsets text hints) :
    sp.start < sp.«end» ∧
      sp.«end» ≤ max text.length (lowerStr text).length ∧
      ((lowerStr text).length = text.length → sp.«end» ≤ text.length) ∧
      ∃ hnt ∈ hints, hnt.text ≠ [] ∧ sp.«end» = sp.start + hnt.text.length := by
  obtain ⟨h1, h2, h3⟩ := attachGo_bounds text hints 0 sp h
  refine ⟨h1, h2, ?_, h3⟩
  intro hpres
  rw [hpres] at h2
  simpa using h2

/-- Closed witness for `relocate_bounds_amended`, at the length-changing
counterexample input itself: the emitted span has `start < end`, `end` within
the lowered source's length, and `end = start + length fragment`. -/
theorem relocate_bounds_amended_witness :
    ((⟨3, 5, ['c'], "Contact&IDs"⟩ : Span) ∈
        _attach_offsets "İabc".toList ([⟨"Contact&IDs", "BC".toList⟩] : List Hint)) ∧
      ((3 : Nat) < 5 ∧
        (5 : Nat) ≤ max "İabc".toList.length (lowerStr "İabc".toList).length ∧
        ((lowerStr "İabc".toList).length = "İabc".toList.length →
          (5 : Nat) ≤ "İabc".toList.length) ∧
        ∃ hnt ∈ ([⟨"Contact&IDs", "BC".toList⟩] : List Hint),
          hnt.text ≠ [] ∧ (5 : Nat) = 3 + hnt.text.length) :=
  ⟨by decide,
    relocate_bounds_amended "İabc".toList [⟨"Contact&IDs", "BC".toList⟩]
      ⟨3, 5, ['c'], "Contact&IDs"⟩ (by decide)⟩

theorem findStart_eq_firstSome (text frag : List Char) (cursor : Nat) :
    findStart text frag cursor = firstSome (searchStrategies text frag cursor) := by
  unfold findStart searchStrategies
  cases strFind text frag cursor with
  | some i => simp [firstSome]
  | none =>
    cases strFind (lowerStr text) (lowerStr frag) cursor with
    | some i => simp [firstSome]
    | none =>
      cases strFind text frag 0 with
      | some i => simp [firstSome]
      | none =>
        cases strFind (lowerStr text) (lowerStr frag) 0 with
        | some i => simp [firstSome]
        | none => simp [firstSome]

/-- C6. `_attach_offsets` implements exactly the relocation procedure the
spec describes: hints processed in order under a single forward cursor
starting at 0, the four search strategies tried in the stated order, empty
fragments skipped, unlocatable fragments dropped, and the cursor advanced to
each produced span's end. -/
theorem attachGo_eq_relocateSpecGo (text : List Char) :
    ∀ (hints : List Hint) (cursor : Nat),
      attachGo text hints cursor = relocateSpecGo text hints cursor := by
  intro hints
  induction hints with
  | nil => intro _; rfl
  | cons hd rest ih =>
    intro cursor
    by_cases he : hd.text = []
    · simp only [attachGo, relocateSpecGo, if_pos he]
      exact ih cursor
    · simp only [attachGo, relocateSpecGo, if_neg he, findStart_eq_firstSome]
      cases firstSome (searchStrategies text hd.text cursor) with
      | none => exact ih cursor
      | some start => exact congrArg (List.cons _) (ih _)

/-- C6. `_attach_offsets` implements exactly the relocation procedure the
spec describes: hints processed in order under a single forward cursor
starting at 0, the four search strategies tried in the stated order (exact at
or after the cursor, case-insensitive at or after the cursor, exact anywhere,
case-insensitive anywhere), empty fragments skipped, unlocatable fragments
dropped with no fabricated offsets, and the cursor advanced to each produced
span's end. -/
theorem attach_offsets_implements_spec (text : List Char) (hints : List Hint) :
    _attach_offsets text hints = relocateSpec text hints :=
  attachGo_eq_relocateSpecGo text hints 0

theorem bucketAppend_cons_hit (k : String) (ss : List Span)
    (rest : List (String × List Span)) (label : String) (sp : Span)
    (h : k = label) :
    bucketAppend ((k, ss) :: rest) label sp = (k, ss ++ [sp]) :: rest := by
  simp [bucketAppend, h]

theorem bucketAppend_cons_miss (k : String) (ss : List Span)
    (rest : List (String × List Span)) (label : String) (sp : Span)
    (h : ¬ k = label) :
    bucketAppend ((k, ss) :: rest) label sp =
      (k, ss) :: bucketAppend rest label sp := by
  simp [bucketAppend, h]

theorem bucketAppend_keys (label : String) (sp : Span) :
    ∀ (spans : List (String × List Span)),
      (bucketAppend spans label sp).map Prod.fst =
        if label ∈ spans.map Prod.fst then spans.map Prod.fst
        else spans.map Prod.fst ++ [label] := by
  intro spans
  induction spans with
  | nil => simp [bucketAppend]
  | cons p rest ih =>
    obtain ⟨k, ss⟩ := p
    by_cases h : k = label
    · rw [bucketAppend_cons_hit k ss rest label sp h]
      simp [h.symm]
    · rw [bucketAppend_cons_miss k ss rest label sp h]
      have h' : ¬ label = k := fun hh => h hh.symm
      by_cases hm : label ∈ rest.map Prod.fst <;> simp [h', hm, ih]

theorem bucketAppend_buckets (label : String) (sp : Span)
    (hsp : sp.label = label) :
    ∀ (spans : List (String × List Span)),
      (∀ p ∈ spans, p.2 ≠ [] ∧ ∀ x ∈ p.2, x.label = p.1) →
      ∀ p ∈ bucketAppend spans label sp, p.2 ≠ [] ∧ ∀ x ∈ p.2, x.label = p.1 := by
  intro spans
  induction spans with
  | nil =>
    intro _ p hp
    simp only [bucketAppend, List.mem_singleton] at hp
    subst hp
    exact ⟨by simp, by simpa using hsp⟩
  | cons q rest ih =>
    obtain ⟨k, ss⟩ := q
    intro hinv p hp
    by_cases h : k = label
    · rw [bucketAppend_cons_hit k ss rest label sp h] at hp
      rcases List.mem_cons.mp hp with hp | hp
      · subst hp
        refine ⟨by simp, ?_⟩
        intro x hx
        rcases List.mem_append.mp hx with hx | hx
        · exact (hinv (k, ss) (List.mem_cons_self ..)).2 x hx
        · simp only [List.mem_singleton] at hx
          subst hx
          exact hsp.trans h.symm
      · exact hinv p (List.mem_cons_of_mem _ hp)
    · rw [bucketAppend_cons_miss k ss rest label sp h] at hp
      rcases List.mem_cons.mp hp with hp | hp
      · subst hp; exact hinv (k, ss) (List.mem_cons_self ..)
      · exact ih (fun q hq => hinv q (List.mem_cons_of_mem _ hq)) p hp

theorem goodState_add (st : BuildState) (label : String) (s e : Nat)
    (txt : List Char) (h : goodState st) :
    goodState (addSpan st label s e txt) := by
  obtain ⟨h1, h2, h3⟩ := h
  refine ⟨?_, ?_, ?_⟩
  · show (if label ∈ st.labels then st.labels else st.labels ++ [label]) =
      (bucketAppend st.spans label ⟨s, e, txt, label⟩).map Prod.fst
    rw [bucketAppend_keys, h1]
  · show ((bucketAppend st.spans label ⟨s, e, txt, label⟩).map Prod.fst).Nodup
    rw [bucketAppend_keys]
    by_cases hm : label ∈ st.spans.map Prod.fst
    · simpa [hm] using h2
    · simp only [if_neg hm]
      rw [← List.concat_eq_append]
      exact List.Nodup.concat hm h2
  · exact bucketAppend_buckets label ⟨s, e, txt, label⟩ rfl st.spans h3

theorem runOps_good (ops : List AddOp) : goodState (runOps ops) := by
  show goodState (ops.foldl (fun st op => addSpan st op.1 op.2.1 op.2.2.1 op.2.2.2) ⟨[], []⟩)
  have hgen : ∀ (l : List AddOp) (st : BuildState), goodState st →
      goodState (l.foldl (fun st op => addSpan st op.1 op.2.1 op.2.2.1 op.2.2.2) st) := by
    intro l
    induction l with
    | nil => intro st h; exact h
    | cons op rest ih =>
      intro st h
      exact ih _ (goodState_add st op.1 op.2.1 op.2.2.1 op.2.2.2 h)
  exact hgen _ _ ⟨rfl, List.nodup_nil, by simp⟩

theorem bucketAppend_flat (label : String) (sp : Span) :
    ∀ (spans : List (String × List Span)),
      ((bucketAppend spans label sp).flatMap Prod.snd).Perm
        (spans.flatMap Prod.snd ++ [sp]) := by
  intro spans
  induction spans with
  | nil => simp [bucketAppend]
  | cons q rest ih =>
    obtain ⟨k, ss⟩ := q
    by_cases h : k = label
    · rw [bucketAppend_cons_hit k ss rest label sp h]
      simp only [List.flatMap_cons, List.append_assoc]
      exact List.Perm.append_left ss List.perm_append_comm
    · rw [bucketAppend_cons_miss k ss rest label sp h]
      simp only [List.flatMap_cons, List.append_assoc]
      exact List.Perm.append_left ss ih

theorem runOps_flat_perm (ops : List AddOp) :
    ((runOps ops).spans.flatMap Prod.snd).Perm (ops.map mkSpanOp) := by
  have hgen : ∀ (l : List AddOp) (st : BuildState),
      (((l.foldl (fun st op => addSpan st op.1 op.2.1 op.2.2.1 op.2.2.2) st).spans).flatMap
          Prod.snd).Perm
        (st.spans.flatMap Prod.snd ++ l.map mkSpanOp) := by
    intro l
    induction l with
    | nil => intro st; simp
    | cons op rest ih =>
      intro st
      refine (ih _).trans ?_
      have hb : (((addSpan st op.1 op.2.1 op.2.2.1 op.2.2.2).spans).flatMap Prod.snd).Perm
          (st.spans.flatMap Prod.snd ++ [mkSpanOp op]) := bucketAppend_flat _ _ _
      have heq : st.spans.flatMap Prod.snd ++ (op :: rest).map mkSpanOp =
          (st.spans.flatMap Prod.snd ++ [mkSpanOp op]) ++ rest.map mkSpanOp := by
        simp
      rw [heq]
      exact List.Perm.append_right _ hb
  have h0 := hgen ops ⟨[], []⟩
  simp only [List.flatMap_nil, List.nil_append] at h0
  exact h0

/-- Membership in `analyze`'s finalized span list is membership in the span
of some `_add` call. -/
theorem analyze_spans_mem (text : List Char) (sp : Span) :
    sp ∈ (analyze text).spans ↔ sp ∈ (analyzeOps text).map mkSpanOp := by
  rw [show analyze text = finalize (runOps (analyzeOps text)) from rfl,
    show ∀ st : BuildState, (finalize st).spans = st.spans.flatMap Prod.snd
      from fun _ => rfl]
  exact (runOps_flat_perm (analyzeOps text)).mem_iff

theorem goodState_labels_sorted (st : BuildState) (h : goodState st) :
    List.insertionSort (fun a b => a ≤ b) st.labels =
      List.insertionSort (fun a b => a ≤ b)
        (((st.spans.flatMap Prod.snd).map Span.label).dedup) := by
  obtain ⟨h1, h2, h3⟩ := h
  have hperm : (List.insertionSort (fun a b => a ≤ b) st.labels).Perm
      (List.insertionSort (fun a b => a ≤ b)
        (((st.spans.flatMap Prod.snd).map Span.label).dedup)) := by
    refine (List.perm_insertionSort _ _).trans
      (List.Perm.trans ?_ (List.perm_insertionSort _ _).symm)
    rw [h1]
    refine (List.perm_ext_iff_of_nodup h2 (List.nodup_dedup _)).mpr ?_
    intro a
    rw [List.mem_dedup]
    constructor
    · intro ha
      rcases List.mem_map.mp ha with ⟨p, hp, rfl⟩
      rcases List.exists_mem_of_ne_nil _ (h3 p hp).1 with ⟨x, hx⟩
      refine List.mem_map.mpr ⟨x, List.mem_flatMap.mpr ⟨p, hp, hx⟩, ?_⟩
      exact (h3 p hp).2 x hx
    · intro ha
      rcases List.mem_map.mp ha with ⟨x, hx, rfl⟩
      rcases List.mem_flatMap.mp hx with ⟨p, hp, hxp⟩
      rw [(h3 p hp).2 x hxp]
      exact List.mem_map.mpr ⟨p, hp, rfl⟩
  exact List.eq_of_perm_of_sorted hperm (List.sorted_insertionSort _ _)
    (List.sorted_insertionSort _ _)

theorem predict_rules_labels (text : List Char) :
    (predict_rules text).labels = (analyze text).labels := by
  unfold predict_rules
  dsimp only

theorem predict_rules_spans (text : List Char) :
    (predict_rules text).spans = (analyze text).spans := by
  unfold predict_rules
  dsimp only

/-- C3 (amended): for the rules-only entry point, `labels` equals the sorted
set of distinct categories appearing among the result's spans. -/
theorem rules_labels_sorted_categories (text : List Char) :
    (predict_rules text).labels =
      List.insertionSort (fun a b => a ≤ b)
        (((predict_rules text).spans.map Span.label).dedup) := by
  rw [predict_rules_labels, predict_rules_spans]
  rw [show analyze text = finalize (runOps (analyzeOps text)) from rfl,
    show ∀ st : BuildState, (finalize st).spans = st.spans.flatMap Prod.snd
      from fun _ => rfl,
    show ∀ st : BuildState,
        (finalize st).labels = List.insertionSort (fun a b => a ≤ b) st.labels
      from fun _ => rfl]
  exact goodState_labels_sorted _ (runOps_good _)

/-- C3 counterexample: the prompt-only entry point copies `labels` from the
classifier response while relocation drops the unlocatable fragment, so
`labels` is not the sorted set of span categories. -/
theorem prompt_only_labels_mismatch :
    ¬ ((predict_prompt_only ⟨["Minors"], [⟨"Minors", "xyz".toList⟩], []⟩
          "hello".toList).labels =
        List.insertionSort (fun a b => a ≤ b)
          (((predict_prompt_only ⟨["Minors"], [⟨"Minors", "xyz".toList⟩], []⟩
              "hello".toList).spans.map Span.label).dedup)) := by
  decide

theorem setdefault_values (m : List (String × String)) (k v w : String)
    (h : ∀ kv ∈ m, kv.2 = w) (hvw : v = w) :
    ∀ kv ∈ setdefault m k v, kv.2 = w := by
  intro kv hkv
  unfold setdefault at hkv
  by_cases hc : m.any (fun kv => kv.1 = k) = true
  · rw [if_pos hc] at hkv
    exact h kv hkv
  · rw [if_neg hc] at hkv
    rcases List.mem_append.mp hkv with hkv | hkv
    · exact h kv hkv
    · simp only [List.mem_singleton] at hkv
      subst hkv
      exact hvw

theorem setdefault_key_present (m : List (String × String)) (k v : String) :
    ∃ kv ∈ setdefault m k v, kv.1 = k := by
  unfold setdefault
  by_cases hc : m.any (fun kv => kv.1 = k) = true
  · rw [if_pos hc]
    rcases List.any_eq_true.mp hc with ⟨kv, hkv, hp⟩
    exact ⟨kv, hkv, by simpa using hp⟩
  · rw [if_neg hc]
    exact ⟨(k, v), by simp⟩

theorem setdefault_key_kept (m : List (String × String)) (k v a : String)
    (h : ∃ kv ∈ m, kv.1 = a) : ∃ kv ∈ setdefault m k v, kv.1 = a := by
  rcases h with ⟨kv, hkv, hp⟩
  unfold setdefault
  by_cases hc : m.any (fun kv => kv.1 = k) = true
  · rw [if_pos hc]; exact ⟨kv, hkv, hp⟩
  · rw [if_neg hc]
    exact ⟨kv, List.mem_append.mpr (Or.inl hkv), hp⟩

theorem fold_setdefault_values (v : String) :
    ∀ (labs : List String) (e : List (String × String)),
      (∀ kv ∈ e, kv.2 = v) →
      ∀ kv ∈ labs.foldl (fun e lab => setdefault e lab v) e, kv.2 = v := by
  intro labs
  induction labs with
  | nil => intro e he; exact he
  | cons lab rest ih =>
    intro e he
    exact ih _ (setdefault_values e lab v v he rfl)

theorem fold_setdefault_key (v : String) :
    ∀ (labs : List String) (e : List (String × String)) (a : String),
      (a ∈ labs ∨ ∃ kv ∈ e, kv.1 = a) →
      ∃ kv ∈ labs.foldl (fun e lab => setdefault e lab v) e, kv.1 = a := by
  intro labs
  induction labs with
  | nil =>
    intro e a ha
    rcases ha with ha | ha
    · exact absurd ha (List.not_mem_nil a)
    · exact ha
  | cons lab rest ih =>
    intro e a ha
    rcases ha with ha | ha
    · rcases List.mem_cons.mp ha with ha | ha
      · subst ha
        exact ih _ a (Or.inr (setdefault_key_present e a v))
      · exact ih _ a (Or.inl ha)
    · exact ih _ a (Or.inr (setdefault_key_kept e lab v a ha))

theorem lookup_of_key_all_values (k v : String) :
    ∀ (m : List (String × String)),
      (∃ kv ∈ m, kv.1 = k) → (∀ kv ∈ m, kv.2 = v) →
      m.lookup k = some v := by
  intro m
  induction m with
  | nil => intro h _; rcases h with ⟨kv, hkv, _⟩; cases hkv
  | cons p rest ih =>
    intro hk hv
    obtain ⟨a, b⟩ := p
    by_cases hc : k = a
    · subst hc
      have : b = v := hv (k, b) (List.mem_cons_self ..)
      subst this
      simp [List.lookup]
    · have hk' : ∃ kv ∈ rest, kv.1 = k := by
        rcases hk with ⟨kv, hkv, hp⟩
        rcases List.mem_cons.mp hkv with h | h
        · exact absurd (hp ▸ congrArg Prod.fst h) (by simpa using hc)
        · exact ⟨kv, h, hp⟩
      have := ih hk' (fun kv hkv => hv kv (List.mem_cons_of_mem _ hkv))
      simpa [List.lookup, beq_false_of_ne hc] using this

/-- C9 (amended): if the result's explanations mapping is empty, every label
is mapped by the render-time assembly to the generic fallback message; if it
is non-empty it is used as-is, so labels missing from it stay unmapped. -/
theorem render_explanations_amended (pred : AnalysisResult) :
    (pred.explanations = [] → ∀ lab ∈ pred.labels,
        (renderExplanations pred).lookup lab = some genericMsg) ∧
      (pred.explanations ≠ [] → renderExplanations pred = pred.explanations) := by
  constructor
  · intro hemp lab hlab
    have hne : pred.labels ≠ [] := fun h => by rw [h] at hlab; cases hlab
    unfold renderExplanations
    rw [if_pos ⟨hemp, hne⟩, hemp]
    exact lookup_of_key_all_values lab genericMsg _
      (fold_setdefault_key genericMsg pred.labels [] lab (Or.inl hlab))
      (fold_setdefault_values genericMsg pred.labels [] (by simp))
  · intro hne
    unfold renderExplanations
    rw [if_neg (fun hcon => hne hcon.1)]

/-- Closed witness for `render_explanations_amended`: the rules result for
`"Lunch at noon"` has empty explanations and the label `Location&Time`, which
the render step maps to the generic message. -/
theorem render_explanations_amended_witness :
    ((predict_rules "Lunch at noon".toList).explanations = [] ∧
        "Location&Time" ∈ (predict_rules "Lunch at noon".toList).labels) ∧
      (renderExplanations (predict_rules "Lunch at noon".toList)).lookup
          "Location&Time" = some genericMsg :=
  ⟨⟨by decide, by decide⟩,
    (render_explanations_amended (predict_rules "Lunch at noon".toList)).1
      (by decide) "Location&Time" (by decide)⟩

/-- C9 counterexample: a prompt-only result whose classifier response supplies
an explanation for one category only; the other category in `labels` is left
with no explanation at all (the generic fallback is applied only when the
mapping is entirely empty). -/
theorem render_explanations_partial_unmapped :
    "Contact&IDs" ∈ (predict_prompt_only
        ⟨["Contact&IDs", "Minors"], [],
          [("Minors", "Mentions a dependent child.")]⟩ "hi".toList).labels ∧
      (renderExplanations (predict_prompt_only
          ⟨["Contact&IDs", "Minors"], [],
            [("Minors", "Mentions a dependent child.")]⟩ "hi".toList)).lookup
        "Contact&IDs" = none := by
  decide

/-! ### Semantic lemmas about the regex engine -/

theorem mem_reRun_cls {p : Char → Bool} {s : List Char} {i j : Nat} :
    j ∈ reRun (.cls p) s i ↔
      ∃ c, s[i]? = some c ∧ p c = true ∧ j = i + 1 := by
  cases h : s[i]? with
  | none => simp [reRun, h]
  | some c =>
    by_cases hp : p c = true
    · simp [reRun, h, hp]
    · simp [reRun, h, hp]

theorem mem_reRun_eps {s : List Char} {i j : Nat} :
    j ∈ reRun .eps s i ↔ j = i := by
  simp [reRun]

theorem mem_reRun_bnd {s : List Char} {i j : Nat} :
    j ∈ reRun .bnd s i ↔ boundaryAt s i = true ∧ j = i := by
  by_cases h : boundaryAt s i = true <;> simp [reRun, h]

theorem mem_reRun_seq {a b : RE} {s : List Char} {i j : Nat} :
    j ∈ reRun (.seq a b) s i ↔ ∃ k ∈ reRun a s i, j ∈ reRun b s k := by
  simp [reRun]

theorem mem_reRun_alt {a b : RE} {s : List Char} {i j : Nat} :
    j ∈ reRun (.alt a b) s i ↔ j ∈ reRun a s i ∨ j ∈ reRun b s i := by
  simp [reRun]

theorem mem_reRun_opt {a : RE} {s : List Char} {i j : Nat} :
    j ∈ reRun (.opt a) s i ↔ j ∈ reRun a s i ∨ j = i := by
  simp [reRun]

/-- A match never moves the position backwards. -/
theorem reRun_mono {s : List Char} :
    ∀ (r : RE) (i j : Nat), j ∈ reRun r s i → i ≤ j := by
  intro r
  induction r with
  | cls p =>
    intro i j h
    rcases mem_reRun_cls.mp h with ⟨c, _, _, rfl⟩
    omega
  | eps => intro i j h; rw [mem_reRun_eps.mp h]
  | bnd => intro i j h; rw [(mem_reRun_bnd.mp h).2]
  | seq a b iha ihb =>
    intro i j h
    rcases mem_reRun_seq.mp h with ⟨k, hk, hj⟩
    exact (iha i k hk).trans (ihb k j hj)
  | alt a b iha ihb =>
    intro i j h
    rcases mem_reRun_alt.mp h with h | h
    · exact iha i j h
    · exact ihb i j h
  | opt a iha =>
    intro i j h
    rcases mem_reRun_opt.mp h with h | rfl
    · exact iha i j h
    · exact le_refl _

theorem ZW_run {r : RE} (h : ZW r) {s : List Char} {i j : Nat}
    (hj : j ∈ reRun r s i) : j = i := by
  cases h with
  | eps => exact mem_reRun_eps.mp hj
  | bnd => exact (mem_reRun_bnd.mp hj).2

theorem FF_run {q : Char → Bool} {r : RE} (hr : FF q r) {s : List Char} :
    ∀ {i j : Nat}, j ∈ reRun r s i →
      ∃ c, s[i]? = some c ∧ q c = true ∧ i < j := by
  induction hr with
  | cls hpq =>
    intro i j h
    rcases mem_reRun_cls.mp h with ⟨c, hc, hp, rfl⟩
    exact ⟨c, hc, hpq c hp, by omega⟩
  | seq_left _ ih =>
    intro i j h
    rcases mem_reRun_seq.mp h with ⟨k, hk, hj⟩
    rcases ih hk with ⟨c, hc, hq, hik⟩
    exact ⟨c, hc, hq, hik.trans_le (reRun_mono _ k j hj)⟩
  | seq_zw hzw _ ih =>
    intro i j h
    rcases mem_reRun_seq.mp h with ⟨k, hk, hj⟩
    rw [ZW_run hzw hk] at hj
    exact ih hj
  | alt _ _ iha ihb =>
    intro i j h
    rcases mem_reRun_alt.mp h with h | h
    · exact iha h
    · exact ihb h

/-- Lowering a digit is the identity (digits are outside the `A`-`Z` range). -/
theorem digit_toLower_eq (c : Char) (h : c.isDigit = true) : c.toLower = c := by
  simp only [Char.isDigit, Bool.and_eq_true, decide_eq_true_eq] at h
  have h9 : c.val ≤ 57 := h.2
  rw [UInt32.le_def, BitVec.le_def] at h9
  have h9n : c.toNat ≤ 57 := h9
  unfold Char.toLower
  rw [if_neg]
  simp only [Bool.and_eq_true, decide_eq_true_eq, not_and]
  omega

/-- A character whose lowering is a fixed non-digit is itself not a digit. -/
theorem not_digit_of_toLower {c d : Char} (hd : d.isDigit = false)
    (h : c.toLower = d) : c.isDigit = false := by
  by_cases hc : c.isDigit = true
  · rw [digit_toLower_eq c hc] at h
    rw [h, hd] at hc
    cases hc
  · simpa using hc

theorem pySlice_append (s : List Char) {i k j : Nat} (h1 : i ≤ k) (h2 : k ≤ j) :
    pySlice s i j = pySlice s i k ++ pySlice s k j := by
  unfold pySlice
  have hsplit : j - i = (k - i) + (j - k) := by omega
  rw [hsplit, List.take_add, List.drop_drop]
  have hik : i + (k - i) = k := by omega
  rw [hik]

theorem pySlice_cons {s : List Char} {i j : Nat} {c : Char}
    (hg : s[i]? = some c) (hij : i < j) :
    pySlice s i j = c :: pySlice s (i + 1) j := by
  unfold pySlice
  rcases List.getElem?_eq_some.mp hg with ⟨hi, hv⟩
  rw [List.drop_eq_getElem_cons hi, hv]
  have hji : j - i = (j - (i + 1)) + 1 := by omega
  rw [hji, List.take_succ_cons]

theorem pySlice_nil (s : List Char) (i : Nat) : pySlice s i i = [] := by
  simp [pySlice]

theorem mem_finditerAux {r : RE} {s : List Char} :
    ∀ (fuel i0 : Nat) (m : Nat × Nat), m ∈ finditerAux r s i0 fuel →
      m.2 ∈ reRun r s m.1 := by
  intro fuel
  induction fuel with
  | zero => intro i0 m h; cases h
  | succ f ih =>
    intro i0 m h
    simp only [finditerAux] at h
    by_cases hc : i0 ≤ s.length
    · rw [if_pos hc] at h
      cases hr : reRun r s i0 with
      | nil => rw [hr] at h; exact ih _ m h
      | cons j rest =>
        rw [hr] at h
        rcases List.mem_cons.mp h with h | h
        · subst h
          rw [hr]
          exact List.mem_cons_self ..
        · exact ih _ m h
    · rw [if_neg hc] at h; cases h

/-- A match reported by `finditer` is a match of the regex at its start. -/
theorem mem_finditer {r : RE} {s : List Char} {m : Nat × Nat}
    (h : m ∈ finditer r s) : m.2 ∈ reRun r s m.1 :=
  mem_finditerAux _ _ m h

theorem rep_zero_zero (a : RE) : rep a 0 0 = .eps := by simp [rep]

theorem rep_succ_zero (a : RE) (l : Nat) :
    rep a (l + 1) 0 = .cls (fun _ => false) := by simp [rep]

theorem rep_zero_succ (a : RE) (h : Nat) :
    rep a 0 (h + 1) = .opt (.seq a (rep a 0 h)) := by simp [rep]

theorem rep_succ_succ (a : RE) (l h : Nat) :
    rep a (l + 1) (h + 1) = .seq a (rep a l h) := by simp [rep]

/-- A `{k,k}` repetition of a single character class consumes exactly `k`
characters. -/
theorem rep_cls_exact {p : Char → Bool} {s : List Char} :
    ∀ (k i j : Nat), j ∈ reRun (rep (.cls p) k k) s i → j = i + k := by
  intro k
  induction k with
  | zero =>
    intro i j h
    rw [rep_zero_zero] at h
    simpa [mem_reRun_eps] using h
  | succ n ih =>
    intro i j h
    rw [rep_succ_succ] at h
    rcases mem_reRun_seq.mp h with ⟨m, hm, hj⟩
    rcases mem_reRun_cls.mp hm with ⟨c, _, _, rfl⟩
    have := ih (i + 1) j hj
    omega

/-- One iteration of `CARD`'s group `(?:\d[ -]?)`: it consumes at least one
character and contributes exactly one digit to the match. -/
theorem card_body_step {s : List Char} {i j : Nat}
    (h : j ∈ reRun (.seq digitC (.opt spaceDashC)) s i) :
    i < j ∧ ((pySlice s i j).filter Char.isDigit).length = 1 := by
  rcases mem_reRun_seq.mp h with ⟨k, hk, hj⟩
  rcases mem_reRun_cls.mp hk with ⟨c, hc, hcd, rfl⟩
  have hcd' : c.isDigit = true := hcd
  rcases mem_reRun_opt.mp hj with hj | rfl
  · rcases mem_reRun_cls.mp hj with ⟨d2, hd2, hsep, rfl⟩
    have hd2nd : d2.isDigit = false := by
      simp only [decide_eq_true_eq, Bool.or_eq_true] at hsep
      rcases hsep with rfl | rfl <;> decide
    refine ⟨by omega, ?_⟩
    rw [pySlice_cons hc (by omega), pySlice_cons hd2 (by omega), pySlice_nil]
    simp [hcd', hd2nd]
  · refine ⟨by omega, ?_⟩
    rw [pySlice_cons hc (by omega), pySlice_nil]
    simp [hcd']

/-- Digit count through a `{lo,hi}` repetition of `CARD`'s group. -/
theorem card_rep_count {s : List Char} :
    ∀ (hi lo i j : Nat),
      j ∈ reRun (rep (.seq digitC (.opt spaceDashC)) lo hi) s i →
      lo ≤ ((pySlice s i j).filter Char.isDigit).length ∧
        ((pySlice s i j).filter Char.isDigit).length ≤ hi ∧
        i + lo ≤ j := by
  intro hi
  induction hi with
  | zero =>
    intro lo i j h
    match lo with
    | 0 =>
      rw [rep_zero_zero] at h
      rw [mem_reRun_eps.mp h, pySlice_nil]
      simp
    | l + 1 =>
      rw [rep_succ_zero] at h
      rcases mem_reRun_cls.mp h with ⟨c, _, hpc, _⟩
      cases hpc
  | succ h ih =>
    intro lo i j hmem
    match lo with
    | 0 =>
      rw [rep_zero_succ] at hmem
      rcases mem_reRun_opt.mp hmem with hmem | rfl
      · rcases mem_reRun_seq.mp hmem with ⟨k, hk, hj⟩
        have hstep := card_body_step hk
        have hrest := ih 0 k j hj
        have hkj : k ≤ j := reRun_mono _ _ _ hj
        rw [pySlice_append s (le_of_lt hstep.1) hkj, List.filter_append,
          List.length_append, hstep.2]
        exact ⟨by omega, by omega, by omega⟩
      · rw [pySlice_nil]
        simp
    | l + 1 =>
      rw [rep_succ_succ] at hmem
      rcases mem_reRun_seq.mp hmem with ⟨k, hk, hj⟩
      have hstep := card_body_step hk
      have hrest := ih l k j hj
      have hkj : k ≤ j := reRun_mono _ _ _ hj
      rw [pySlice_append s (le_of_lt hstep.1) hkj, List.filter_append,
        List.length_append, hstep.2]
      exact ⟨by omega, by omega, by omega⟩

/-- A case-sensitive literal whose first character is not a digit. -/
theorem FF_lit (w : String) (c0 : Char) (rest : List Char)
    (hw : w.toList = c0 :: rest) (h0 : c0.isDigit = false) :
    FF (fun c => !c.isDigit) (lit w) := by
  unfold lit seqs
  rw [hw]
  simp only [List.map, List.foldr]
  refine FF.seq_left (FF.cls ?_)
  intro c hc
  simp only [decide_eq_true_eq] at hc
  subst hc
  simp [h0]

/-- A case-insensitive literal whose lowered first character is not a digit. -/
theorem FF_litCI (w : String) (c0 : Char) (rest : List Char)
    (hw : w.toList = c0 :: rest) (h0 : (c0.toLower).isDigit = false) :
    FF (fun c => !c.isDigit) (litCI w) := by
  unfold litCI seqs
  rw [hw]
  simp only [List.map, List.foldr]
  refine FF.seq_left (FF.cls ?_)
  intro c hc
  simp only [decide_eq_true_eq] at hc
  simp [not_digit_of_toLower h0 hc]

theorem FF_STRIPE (n : Nat) : FF (fun c => !c.isDigit) (STRIPE n) :=
  FF.seq_zw ZW.bnd (FF.seq_left (FF_lit "sk_" 's' ['k', '_'] rfl (by decide)))

theorem FF_SLACK (n : Nat) : FF (fun c => !c.isDigit) (SLACK n) :=
  FF.seq_zw ZW.bnd (FF.seq_left (FF_lit "xox" 'x' ['o', 'x'] rfl (by decide)))

theorem FF_SSH (n : Nat) : FF (fun c => !c.isDigit) (SSH n) :=
  FF.seq_zw ZW.bnd
    (FF.seq_left (FF_lit "AAAAB3Nza" 'A' "AAAB3Nza".toList (by decide) (by decide)))

theorem FF_PASS_ASSIGN (n : Nat) : FF (fun c => !c.isDigit) (PASS_ASSIGN n) :=
  FF.seq_zw ZW.bnd
    (FF.seq_left (FF.alt (FF_litCI "pass" 'p' "ass".toList (by decide) (by decide))
      (FF.alt (FF_litCI "password" 'p' "assword".toList (by decide) (by decide))
        (FF_litCI "passcode" 'p' "asscode".toList (by decide) (by decide)))))

theorem FF_POLICY (n : Nat) : FF (fun c => !c.isDigit) (POLICY n) :=
  FF.seq_zw ZW.bnd
    (FF.seq_left (FF.alt (FF_litCI "DL" 'D' ['L'] rfl (by decide))
      (FF.alt (FF_litCI "ID" 'I' ['D'] rfl (by decide))
        (FF.alt (FF_litCI "POLICY" 'P' "OLICY".toList (by decide) (by decide))
          (FF.alt (FF_litCI "POL" 'P' "OL".toList (by decide) (by decide))
            (FF.alt (FF_litCI "INS" 'I' "NS".toList (by decide) (by decide))
              (FF_litCI "LIC" 'L' "IC".toList (by decide) (by decide))))))))

/-- Every `SSN` match spans exactly 11 characters (`ddd-dd-dddd`). -/
theorem SSN_length {s : List Char} {i j : Nat} (h : j ∈ reRun SSN s i) :
    j = i + 11 := by
  have h' : j ∈ reRun (.seq .bnd (.seq (rep digitC 3 3) (.seq (chr '-')
      (.seq (rep digitC 2 2) (.seq (chr '-')
        (.seq (rep digitC 4 4) (.seq .bnd .eps))))))) s i := h
  rcases mem_reRun_seq.mp h' with ⟨k1, hk1, h1⟩
  rw [(mem_reRun_bnd.mp hk1).2] at h1
  rcases mem_reRun_seq.mp h1 with ⟨k2, hk2, h2⟩
  rw [rep_cls_exact 3 i k2 hk2] at h2
  rcases mem_reRun_seq.mp h2 with ⟨k3, hk3, h3⟩
  rcases mem_reRun_cls.mp hk3 with ⟨_, _, _, rfl⟩
  rcases mem_reRun_seq.mp h3 with ⟨k4, hk4, h4⟩
  rw [rep_cls_exact 2 _ k4 hk4] at h4
  rcases mem_reRun_seq.mp h4 with ⟨k5, hk5, h5⟩
  rcases mem_reRun_cls.mp hk5 with ⟨_, _, _, rfl⟩
  rcases mem_reRun_seq.mp h5 with ⟨k6, hk6, h6⟩
  rw [rep_cls_exact 4 _ k6 hk6] at h6
  rcases mem_reRun_seq.mp h6 with ⟨k7, hk7, h7⟩
  rw [(mem_reRun_bnd.mp hk7).2] at h7
  rw [mem_reRun_eps.mp h7]

/-- Every `CARD` match starts with a digit, spans at least 13 characters, and
contains between 13 and 19 digits. -/
theorem CARD_match {s : List Char} {i j : Nat} (h : j ∈ reRun CARD s i) :
    (∃ c, s[i]? = some c ∧ c.isDigit = true) ∧
      13 ≤ ((pySlice s i j).filter Char.isDigit).length ∧
      ((pySlice s i j).filter Char.isDigit).length ≤ 19 ∧ i + 13 ≤ j := by
  have h' : j ∈ reRun (.seq .bnd (.seq (rep (.seq digitC (.opt spaceDashC)) 13 19)
      (.seq .bnd .eps))) s i := h
  rcases mem_reRun_seq.mp h' with ⟨k1, hk1, h1⟩
  rw [(mem_reRun_bnd.mp hk1).2] at h1
  rcases mem_reRun_seq.mp h1 with ⟨k2, hk2, h2⟩
  rcases mem_reRun_seq.mp h2 with ⟨k3, hk3, h3⟩
  rw [(mem_reRun_bnd.mp hk3).2] at h3
  rw [mem_reRun_eps.mp h3]
  have hcnt := card_rep_count 19 13 i k2 hk2
  have hfirst : ∃ c, s[i]? = some c ∧ c.isDigit = true := by
    rw [show rep (.seq digitC (.opt spaceDashC)) 13 19 =
        .seq (.seq digitC (.opt spaceDashC))
          (rep (.seq digitC (.opt spaceDashC)) 12 18) from rfl] at hk2
    rcases mem_reRun_seq.mp hk2 with ⟨k0, hk0, _⟩
    rcases mem_reRun_seq.mp hk0 with ⟨kd, hkd, _⟩
    rcases mem_reRun_cls.mp hkd with ⟨c, hc, hcd, rfl⟩
    exact ⟨c, hc, hcd⟩
  exact ⟨hfirst, hcnt.1, hcnt.2.1, hcnt.2.2⟩

/-! ### Classifying the `_add` calls of `analyze` by originating rule -/

theorem opsOfMatches_label {label : String} {ms : List (Nat × Nat)}
    {text : List Char} {op : AddOp} (h : op ∈ opsOfMatches label ms text) :
    op.1 = label := by
  rcases List.mem_map.mp h with ⟨m, _, rfl⟩
  rfl

theorem mem_opsOfMatches {label : String} {ms : List (Nat × Nat)}
    {text : List Char} {op : AddOp} :
    op ∈ opsOfMatches label ms text ↔
      ∃ m ∈ ms, op = (label, m.1, m.2, pySlice text m.1 m.2) := by
  unfold opsOfMatches
  rw [List.mem_map]
  constructor
  · rintro ⟨m, hm, rfl⟩; exact ⟨m, hm, rfl⟩
  · rintro ⟨m, hm, rfl⟩; exact ⟨m, hm, rfl⟩

theorem wordOps_label {label : String} {ws : List String}
    {text tlow : List Char} {op : AddOp}
    (h : op ∈ ws.flatMap fun w => (find_spans tlow w.toList).map fun se =>
      (label, se.1, se.2.1, pySlice text se.1 se.2.1)) :
    op.1 = label := by
  rcases List.mem_flatMap.mp h with ⟨w, _, hw⟩
  rcases List.mem_map.mp hw with ⟨se, _, rfl⟩
  rfl

theorem hintOps_label {text tlow : List Char} {op : AddOp}
    (h : op ∈ ADDRESS_HINTS.flatMap fun hint =>
      (find_spans tlow hint.toList).filterMap fun se =>
        if 10 ≤ se.1 then
          some ("Contact&IDs", se.1, se.2.1, pySlice text se.1 se.2.1)
        else none) :
    op.1 = "Contact&IDs" := by
  rcases List.mem_flatMap.mp h with ⟨w, _, hw⟩
  rcases List.mem_filterMap.mp hw with ⟨se, _, hse⟩
  by_cases hc : 10 ≤ se.1
  · rw [if_pos hc] at hse; cases hse; rfl
  · rw [if_neg hc] at hse; cases hse

theorem cardOps_shape {text : List Char} {op : AddOp}
    (h : op ∈ (finditer CARD text).filterMap fun m =>
      let window := lowerStr (pySlice text (m.1 - 16) (m.2 + 16))
      if CARD_KEYWORDS.any (fun k => containsSub window k.toList) then
        let digits := (pySlice text m.1 m.2).filter Char.isDigit
        if 13 ≤ digits.length ∧ digits.length ≤ 19 then
          some ("Gov&Financial IDs", m.1, m.2, pySlice text m.1 m.2)
        else none
      else none) :
    ∃ m ∈ finditer CARD text,
      (CARD_KEYWORDS.any fun k =>
        containsSub (lowerStr (pySlice text (m.1 - 16) (m.2 + 16))) k.toList) = true ∧
      op = ("Gov&Financial IDs", m.1, m.2, pySlice text m.1 m.2) := by
  rcases List.mem_filterMap.mp h with ⟨m, hm, hsome⟩
  dsimp only at hsome
  by_cases hgate : (CARD_KEYWORDS.any fun k =>
      containsSub (lowerStr (pySlice text (m.1 - 16) (m.2 + 16))) k.toList) = true
  · rw [if_pos hgate] at hsome
    by_cases hd : 13 ≤ ((pySlice text m.1 m.2).filter Char.isDigit).length ∧
        ((pySlice text m.1 m.2).filter Char.isDigit).length ≤ 19
    · rw [if_pos hd] at hsome
      cases hsome
      exact ⟨m, hm, hgate, rfl⟩
    · rw [if_neg hd] at hsome; cases hsome
  · rw [if_neg hgate] at hsome; cases hsome

/-- Every `_add` call labelled `Credentials&Security` comes from one of the
four fixed credential patterns, unless the whole-post trigger-word gate for
PIN/OTP tokens was open. -/
theorem analyzeOps_credentials (text : List Char) (op : AddOp)
    (hop : op ∈ analyzeOps text) (hlab : op.1 = "Credentials&Security") :
    (∃ m ∈ finditer (STRIPE text.length) text,
        op = ("Credentials&Security", m.1, m.2, pySlice text m.1 m.2)) ∨
    (∃ m ∈ finditer (SLACK text.length) text,
        op = ("Credentials&Security", m.1, m.2, pySlice text m.1 m.2)) ∨
    (∃ m ∈ finditer (SSH text.length) text,
        op = ("Credentials&Security", m.1, m.2, pySlice text m.1 m.2)) ∨
    (∃ m ∈ finditer (PASS_ASSIGN text.length) text,
        op = ("Credentials&Security", m.1, m.2, pySlice text m.1 m.2)) ∨
    (TOKEN_WORDS.any fun w => containsSub (lowerStr text) w.toList) = true := by
  simp only [analyzeOps] at hop
  rcases List.mem_append.mp hop with hop | hseg
  rotate_left
  · exact absurd ((wordOps_label hseg).symm.trans hlab) (by decide)
  rcases List.mem_append.mp hop with hop | hseg
  rotate_left
  · exact absurd ((wordOps_label hseg).symm.trans hlab) (by decide)
  rcases List.mem_append.mp hop with hop | hseg
  rotate_left
  · exact absurd ((wordOps_label hseg).symm.trans hlab) (by decide)
  rcases List.mem_append.mp hop with hop | hseg
  rotate_left
  · exact absurd ((wordOps_label hseg).symm.trans hlab) (by decide)
  rcases List.mem_append.mp hop with hop | hseg
  rotate_left
  · exact absurd ((opsOfMatches_label hseg).symm.trans hlab) (by decide)
  rcases List.mem_append.mp hop with hop | hseg
  rotate_left
  · exact absurd ((opsOfMatches_label hseg).symm.trans hlab) (by decide)
  rcases List.mem_append.mp hop with hop | hseg
  rotate_left
  · exact absurd ((opsOfMatches_label hseg).symm.trans hlab) (by decide)
  rcases List.mem_append.mp hop with hop | hseg
  rotate_left
  · exact absurd ((opsOfMatches_label hseg).symm.trans hlab) (by decide)
  rcases List.mem_append.mp hop with hop | hseg
  rotate_left
  · exact absurd ((opsOfMatches_label hseg).symm.trans hlab) (by decide)
  rcases List.mem_append.mp hop with hop | hseg
  rotate_left
  · exact absurd ((opsOfMatches_label hseg).symm.trans hlab) (by decide)
  rcases List.mem_append.mp hop with hop | hseg
  rotate_left
  · exact absurd ((opsOfMatches_label hseg).symm.trans hlab) (by decide)
  rcases List.mem_append.mp hop with hop | hseg
  rotate_left
  · exact absurd ((opsOfMatches_label hseg).symm.trans hlab) (by decide)
  rcases List.mem_append.mp hop with hop | hseg
  rotate_left
  · -- the gated PIN4/OTP6 segment
    by_cases hg : (TOKEN_WORDS.any fun w => containsSub (lowerStr text) w.toList) = true
    · exact Or.inr (Or.inr (Or.inr (Or.inr hg)))
    · rw [if_neg hg] at hseg
      cases hseg
  rcases List.mem_append.mp hop with hop | hseg
  rotate_left
  · exact Or.inr (Or.inr (Or.inr (Or.inl (mem_opsOfMatches.mp hseg))))
  rcases List.mem_append.mp hop with hop | hseg
  rotate_left
  · exact Or.inr (Or.inr (Or.inl (mem_opsOfMatches.mp hseg)))
  rcases List.mem_append.mp hop with hop | hseg
  rotate_left
  · exact Or.inr (Or.inl (mem_opsOfMatches.mp hseg))
  rcases List.mem_append.mp hop with hop | hseg
  rotate_left
  · exact Or.inl (mem_opsOfMatches.mp hseg)
  rcases List.mem_append.mp hop with hop | hseg
  rotate_left
  · exact absurd ((opsOfMatches_label hseg).symm.trans hlab) (by decide)
  rcases List.mem_append.mp hop with hop | hseg
  rotate_left
  · rcases cardOps_shape hseg with ⟨m, _, _, rfl⟩
    have hlab' : ("Gov&Financial IDs" : String) = "Credentials&Security" := hlab
    exact absurd hlab' (by decide)
  rcases List.mem_append.mp hop with hop | hseg
  rotate_left
  · exact absurd ((opsOfMatches_label hseg).symm.trans hlab) (by decide)
  rcases List.mem_append.mp hop with hop | hseg
  rotate_left
  · exact absurd ((hintOps_label hseg).symm.trans hlab) (by decide)
  rcases List.mem_append.mp hop with hop | hseg
  rotate_left
  · exact absurd ((opsOfMatches_label hseg).symm.trans hlab) (by decide)
  rcases List.mem_append.mp hop with hop | hseg
  rotate_left
  · exact absurd ((opsOfMatches_label hseg).symm.trans hlab) (by decide)
  · exact absurd ((opsOfMatches_label hop).symm.trans hlab) (by decide)

/-- C7. If the post text contains no credential trigger word anywhere
(case-insensitively), then no `Credentials&Security` span emitted by the
scanner is a standalone 4-digit or 6-digit numeric token: the gated `PIN4` /
`OTP6` rules contribute nothing, and every other credential pattern starts
with a non-digit character. -/
theorem pin_requires_trigger_word (text : List Char)
    (hgate : (TOKEN_WORDS.any fun w => containsSub (lowerStr text) w.toList) = false)
    (sp : Span) (hsp : sp ∈ (analyze text).spans)
    (hlab : sp.label = "Credentials&Security") :
    ¬ ((sp.text.length = 4 ∨ sp.text.length = 6) ∧
        sp.text.all Char.isDigit = true) := by
  rintro ⟨hlen, hdig⟩
  rw [analyze_spans_mem] at hsp
  rcases List.mem_map.mp hsp with ⟨op, hop, rfl⟩
  have hlab' : op.1 = "Credentials&Security" := hlab
  have hcls := analyzeOps_credentials text op hop hlab'
  have hnodig : ∀ (m : Nat × Nat) (r : RE), FF (fun c => !c.isDigit) r →
      m.2 ∈ reRun r text m.1 →
      op = ("Credentials&Security", m.1, m.2, pySlice text m.1 m.2) → False := by
    intro m r hFF hrun hope
    rcases FF_run hFF hrun with ⟨c, hc, hnd, hij⟩
    rw [hope] at hdig
    have hdig' : (pySlice text m.1 m.2).all Char.isDigit = true := hdig
    rw [pySlice_cons hc hij] at hdig'
    simp only [List.all_cons, Bool.and_eq_true] at hdig'
    have hnd' : (!c.isDigit) = true := hnd
    rw [hdig'.1] at hnd'
    exact Bool.false_ne_true hnd'
  rcases hcls with ⟨m, hm, hope⟩ | ⟨m, hm, hope⟩ | ⟨m, hm, hope⟩ | ⟨m, hm, hope⟩ | hg
  · exact hnodig m _ (FF_STRIPE text.length) (mem_finditer hm) hope
  · exact hnodig m _ (FF_SLACK text.length) (mem_finditer hm) hope
  · exact hnodig m _ (FF_SSH text.length) (mem_finditer hm) hope
  · exact hnodig m _ (FF_PASS_ASSIGN text.length) (mem_finditer hm) hope
  · rw [hgate] at hg
    cases hg

/-- Closed witness for `pin_requires_trigger_word`: in `"pass: 1234"` no
trigger word occurs, and the only credential span is the `PASS_ASSIGN` match
`"pass: 1234"`, which is not a bare digit token. -/
theorem pin_requires_trigger_word_witness :
    ((TOKEN_WORDS.any fun w =>
        containsSub (lowerStr "pass: 1234".toList) w.toList) = false ∧
      (⟨0, 10, "pass: 1234".toList, "Credentials&Security"⟩ : Span) ∈
        (analyze "pass: 1234".toList).spans ∧
      (⟨0, 10, "pass: 1234".toList, "Credentials&Security"⟩ : Span).label =
        "Credentials&Security") ∧
    ¬ ((((⟨0, 10, "pass: 1234".toList, "Credentials&Security"⟩ : Span)).text.length = 4 ∨
        ((⟨0, 10, "pass: 1234".toList, "Credentials&Security"⟩ : Span)).text.length = 6) ∧
        ((⟨0, 10, "pass: 1234".toList, "Credentials&Security"⟩ : Span)).text.all
          Char.isDigit = true) :=
  ⟨⟨by decide, by decide, by decide⟩,
    pin_requires_trigger_word "pass: 1234".toList (by decide)
      ⟨0, 10, "pass: 1234".toList, "Credentials&Security"⟩ (by decide) (by decide)⟩

/-- Every `_add` call labelled `Gov&Financial IDs` comes from `SSN`, the
keyword-gated `CARD` rule, or `POLICY`. -/
theorem analyzeOps_gov (text : List Char) (op : AddOp)
    (hop : op ∈ analyzeOps text) (hlab : op.1 = "Gov&Financial IDs") :
    (∃ m ∈ finditer SSN text,
        op = ("Gov&Financial IDs", m.1, m.2, pySlice text m.1 m.2)) ∨
    (∃ m ∈ finditer CARD text,
        (CARD_KEYWORDS.any fun k =>
          containsSub (lowerStr (pySlice text (m.1 - 16) (m.2 + 16))) k.toList) = true ∧
        op = ("Gov&Financial IDs", m.1, m.2, pySlice text m.1 m.2)) ∨
    (∃ m ∈ finditer (POLICY text.length) text,
        op = ("Gov&Financial IDs", m.1, m.2, pySlice text m.1 m.2)) := by
  simp only [analyzeOps] at hop
  rcases List.mem_append.mp hop with hop | hseg
  rotate_left
  · exact absurd ((wordOps_label hseg).symm.trans hlab) (by decide)
  rcases List.mem_append.mp hop with hop | hseg
  rotate_left
  · exact absurd ((wordOps_label hseg).symm.trans hlab) (by decide)
  rcases List.mem_append.mp hop with hop | hseg
  rotate_left
  · exact absurd ((wordOps_label hseg).symm.trans hlab) (by decide)
  rcases List.mem_append.mp hop with hop | hseg
  rotate_left
  · exact absurd ((wordOps_label hseg).symm.trans hlab) (by decide)
  rcases List.mem_append.mp hop with hop | hseg
  rotate_left
  · exact absurd ((opsOfMatches_label hseg).symm.trans hlab) (by decide)
  rcases List.mem_append.mp hop with hop | hseg
  rotate_left
  · exact absurd ((opsOfMatches_label hseg).symm.trans hlab) (by decide)
  rcases List.mem_append.mp hop with hop | hseg
  rotate_left
  · exact absurd ((opsOfMatches_label hseg).symm.trans hlab) (by decide)
  rcases List.mem_append.mp hop with hop | hseg
  rotate_left
  · exact absurd ((opsOfMatches_label hseg).symm.trans hlab) (by decide)
  rcases List.mem_append.mp hop with hop | hseg
  rotate_left
  · exact absurd ((opsOfMatches_label hseg).symm.trans hlab) (by decide)
  rcases List.mem_append.mp hop with hop | hseg
  rotate_left
  · exact absurd ((opsOfMatches_label hseg).symm.trans hlab) (by decide)
  rcases List.mem_append.mp hop with hop | hseg
  rotate_left
  · exact absurd ((opsOfMatches_label hseg).symm.trans hlab) (by decide)
  rcases List.mem_append.mp hop with hop | hseg
  rotate_left
  · exact absurd ((opsOfMatches_label hseg).symm.trans hlab) (by decide)
  rcases List.mem_append.mp hop with hop | hseg
  rotate_left
  · by_cases hg : (TOKEN_WORDS.any fun w => containsSub (lowerStr text) w.toList) = true
    · rw [if_pos hg] at hseg
      rcases List.mem_append.mp hseg with hseg | hseg
      · exact absurd ((opsOfMatches_label hseg).symm.trans hlab) (by decide)
      · exact absurd ((opsOfMatches_label hseg).symm.trans hlab) (by decide)
    · rw [if_neg hg] at hseg
      cases hseg
  rcases List.mem_append.mp hop with hop | hseg
  rotate_left
  · exact absurd ((opsOfMatches_label hseg).symm.trans hlab) (by decide)
  rcases List.mem_append.mp hop with hop | hseg
  rotate_left
  · exact absurd ((opsOfMatches_label hseg).symm.trans hlab) (by decide)
  rcases List.mem_append.mp hop with hop | hseg
  rotate_left
  · exact absurd ((opsOfMatches_label hseg).symm.trans hlab) (by decide)
  rcases List.mem_append.mp hop with hop | hseg
  rotate_left
  · exact absurd ((opsOfMatches_label hseg).symm.trans hlab) (by decide)
  rcases List.mem_append.mp hop with hop | hseg
  rotate_left
  · exact Or.inr (Or.inr (mem_opsOfMatches.mp hseg))
  rcases List.mem_append.mp hop with hop | hseg
  rotate_left
  · exact Or.inr (Or.inl (cardOps_shape hseg))
  rcases List.mem_append.mp hop with hop | hseg
  rotate_left
  · exact Or.inl (mem_opsOfMatches.mp hseg)
  rcases List.mem_append.mp hop with hop | hseg
  rotate_left
  · exact absurd ((hintOps_label hseg).symm.trans hlab) (by decide)
  rcases List.mem_append.mp hop with hop | hseg
  rotate_left
  · exact absurd ((opsOfMatches_label hseg).symm.trans hlab) (by decide)
  rcases List.mem_append.mp hop with hop | hseg
  rotate_left
  · exact absurd ((opsOfMatches_label hseg).symm.trans hlab) (by decide)
  · exact absurd ((opsOfMatches_label hop).symm.trans hlab) (by decide)

/-- C8. A financial-card-like digit run found by `CARD` is emitted as a
`Gov&Financial IDs` span exactly when the ±16-character window around the
match contains (case-insensitively) at least one designated trigger keyword;
otherwise the match produces no span.  (The additional 13-19 digit filter in
the code is always satisfied by a `CARD` match.) -/
theorem card_window_gate (text : List Char) (m : Nat × Nat)
    (hm : m ∈ finditer CARD text) :
    (⟨m.1, m.2, pySlice text m.1 m.2, "Gov&Financial IDs"⟩ : Span) ∈
        (analyze text).spans ↔
      (CARD_KEYWORDS.any fun k =>
        containsSub (lowerStr (pySlice text (m.1 - 16) (m.2 + 16))) k.toList) = true := by
  have hrun := mem_finditer hm
  have hcard := CARD_match hrun
  constructor
  · intro hsp
    rw [analyze_spans_mem] at hsp
    rcases List.mem_map.mp hsp with ⟨op, hop, heq⟩
    have hlab : op.1 = "Gov&Financial IDs" := by
      have h := congrArg Span.label heq
      exact h
    rcases analyzeOps_gov text op hop hlab with
      ⟨m', hm', hope⟩ | ⟨m', hm', hgate, hope⟩ | ⟨m', hm', hope⟩
    · rw [hope] at heq
      have h1 : m'.1 = m.1 := congrArg Span.start heq
      have h2 : m'.2 = m.2 := congrArg Span.«end» heq
      have hssn := SSN_length (mem_finditer hm')
      have hlen := hcard.2.2.2
      omega
    · rw [hope] at heq
      have h1 : m'.1 = m.1 := congrArg Span.start heq
      have h2 : m'.2 = m.2 := congrArg Span.«end» heq
      rw [h1, h2] at hgate
      exact hgate
    · rw [hope] at heq
      have h1 : m'.1 = m.1 := congrArg Span.start heq
      rcases FF_run (FF_POLICY text.length) (mem_finditer hm') with ⟨c', hc', hnd, _⟩
      rcases hcard.1 with ⟨c, hc, hd⟩
      rw [h1, hc] at hc'
      cases hc'
      have hnd' : (!c'.isDigit) = true := hnd
      rw [hd] at hnd'
      exact absurd hnd' (by decide)
  · intro hgate
    rw [analyze_spans_mem]
    refine List.mem_map.mpr
      ⟨("Gov&Financial IDs", m.1, m.2, pySlice text m.1 m.2), ?_, rfl⟩
    simp only [analyzeOps, List.mem_append]
    refine Or.inl (Or.inl (Or.inl (Or.inl (Or.inl (Or.inl (Or.inl (Or.inl
      (Or.inl (Or.inl (Or.inl (Or.inl (Or.inl (Or.inl (Or.inl (Or.inl
        (Or.inl (Or.inl (Or.inr ?_))))))))))))))))))
    refine List.mem_filterMap.mpr ⟨m, hm, ?_⟩
    dsimp only
    rw [if_pos hgate, if_pos ⟨hcard.2.1, hcard.2.2.1⟩]

/-- Closed witness for `card_window_gate`: the 16-digit run in
`"card 4111 1111 1111 1111"` is a `CARD` match at offsets 5-24, and the
window contains the keyword `"card"`. -/
theorem card_window_gate_witness :
    ((5, 24) ∈ finditer CARD "card 4111 1111 1111 1111".toList) ∧
      ((⟨5, 24, pySlice "card 4111 1111 1111 1111".toList 5 24,
            "Gov&Financial IDs"⟩ : Span) ∈
          (analyze "card 4111 1111 1111 1111".toList).spans ↔
        (CARD_KEYWORDS.any fun k =>
          containsSub
            (lowerStr (pySlice "card 4111 1111 1111 1111".toList (5 - 16) (24 + 16)))
            k.toList) = true) :=
  ⟨by decide,
    card_window_gate "card 4111 1111 1111 1111".toList (5, 24) (by decide)⟩

end Oversharing

